import Mathlib

/-!
# ZeroProto: verification of the wire codec and schema compiler

Shallow embedding of the ZeroProto serialization framework
(crates/zeroproto: builder.rs, reader.rs, primitives.rs, errors.rs, lib.rs;
crates/zeroproto-compiler: parser.rs, validator.rs, ir.rs, ast.rs).

Conventions of the embedding:
* Byte buffers are `List Nat`; every byte written by the code is `< 256` by
  construction (little-endian byte splitting).
* Rust machine integers are modelled as `Nat` with an explicit `% 2 ^ w`
  at the places the source performs an `as` cast; two's-complement values
  (`i8..i64`) and IEEE-754 floats (`f32`/`f64`) are represented by their
  unsigned bit patterns, which is exactly how the source reads and writes
  them (`to_bits`/`from_bits`, `as uN` casts).
* Fallible Rust functions returning `Result` become `Except Error`.
  Operations that can also hit a Rust panic (out-of-bounds slice indexing,
  `expect` on a failed parse) return an `Outcome`, whose `panic` case marks
  exactly the program points where the Rust code would abort.
* `&mut self` methods become state-passing functions returning the result
  together with the updated value.
-/

namespace ZeroProto

/-! ## Little-endian byte primitives (primitives.rs, lib.rs)

`leBytes v n` is `v.to_le_bytes()` truncated/zero-extended to `n` bytes,
which is what `Endian::Little.write_uN` stores.  `readLE buf off n`
recombines `n` bytes little-endian, which is what `uN::from_le_bytes` of
the slice `buf[off..off+n]` computes (`Endian::Little.read_uN`). -/

/-- Little-endian byte splitting: byte `i` is `(v / 256^i) % 256`. -/
def leBytes (v : Nat) : Nat → List Nat
  | 0 => []
  | n + 1 => v % 256 :: leBytes (v / 256) n

/-- Little-endian recombination of `n` bytes of `buf` starting at `off`
(out-of-range positions read as 0; all call sites are bounds-guarded). -/
def readLE (buf : List Nat) (off : Nat) : Nat → Nat
  | 0 => 0
  | n + 1 => buf.getD off 0 + 256 * readLE buf (off + 1) n

/-- `Endian::Little.read_u16` (primitives.rs): `u16::from_le_bytes` of two bytes. -/
def readU16 (buf : List Nat) (off : Nat) : Nat := readLE buf off 2

/-- `Endian::Little.read_u32` (primitives.rs) takes the slice
`buf[offset..offset+4]`, which panics when the slice leaves the buffer.
The `none` result marks that panic. -/
def readU32? (buf : List Nat) (off : Nat) : Option Nat :=
  if off + 4 ≤ buf.length then some (readLE buf off 4) else none

theorem leBytes_length (v n : Nat) : (leBytes v n).length = n := by
  induction n generalizing v with
  | zero => rfl
  | succ n ih => simp [leBytes, ih]

theorem leBytes_lt (v n i : Nat) (h : i < n) : (leBytes v n).getD i 0 < 256 := by
  induction n generalizing v i with
  | zero => omega
  | succ n ih =>
    cases i with
    | zero => simpa [leBytes] using Nat.mod_lt v (by norm_num)
    | succ i => simpa [leBytes] using ih (v / 256) i (by omega)

/-- Recombining little-endian bytes recovers the value modulo `256 ^ n`:
if `buf` agrees with `leBytes v n` on the window `[off, off+n)` then
`readLE buf off n = v % 256 ^ n`. -/
theorem readLE_leBytes (v n : Nat) (buf : List Nat) (off : Nat)
    (h : ∀ i, i < n → buf.getD (off + i) 0 = (leBytes v n).getD i 0) :
    readLE buf off n = v % 256 ^ n := by
  induction n generalizing v off with
  | zero => simp [readLE, Nat.mod_one]
  | succ n ih =>
    have h0 : buf.getD off 0 = v % 256 := by
      simpa [leBytes] using h 0 (by omega)
    have hrest : readLE buf (off + 1) n = (v / 256) % 256 ^ n := by
      apply ih
      intro i hi
      have := h (i + 1) (by omega)
      simpa [leBytes, Nat.add_assoc, Nat.add_comm 1 i] using this
    rw [readLE, h0, hrest]
    rw [Nat.pow_succ]
    rw [Nat.mul_comm (256 ^ n) 256, Nat.mod_mul]

/-! ## Generic buffer-editing helpers

These model the imperative byte-level operations of `MessageBuilder`:
in-place writes (`buf[i] = x`, `copy_from_slice`), `Vec::resize`, the
payload-shifting loop in `finish` and the field-table writing loop. -/

/-- Overwrite `bs` into `buf` starting at `off`
(`buf[off..off+bs.len()].copy_from_slice(bs)`). -/
def writeBytesAt (buf : List Nat) (off : Nat) : List Nat → List Nat
  | [] => buf
  | b :: bs => writeBytesAt (buf.set off b) (off + 1) bs

/-- `Vec::resize(n, d)`: truncate to `n` when shorter, else pad with `d`. -/
def vecResize (xs : List Nat) (n : Nat) (d : Nat) : List Nat :=
  if n ≤ xs.length then xs.take n else xs ++ List.replicate (n - xs.length) d

/-- The payload-shifting loop of `MessageBuilder::finish` (builder.rs):
`for i in (0..n).rev() { buffer[2 + t + i] = buffer[2 + i]; }`. -/
def copyDown (buf : List Nat) (t : Nat) : Nat → List Nat
  | 0 => buf
  | n + 1 => copyDown ((buf.set (2 + t + n) (buf.getD (2 + n) 0))) t n

theorem writeBytesAt_length (bs : List Nat) (buf : List Nat) (off : Nat) :
    (writeBytesAt buf off bs).length = buf.length := by
  induction bs generalizing buf off with
  | nil => rfl
  | cons b bs ih => simp [writeBytesAt, ih]

theorem copyDown_length (n : Nat) (buf : List Nat) (t : Nat) :
    (copyDown buf t n).length = buf.length := by
  induction n generalizing buf with
  | zero => rfl
  | succ n ih => simp [copyDown, ih]

theorem vecResize_length (xs : List Nat) (n d : Nat) :
    (vecResize xs n d).length = n := by
  unfold vecResize
  split <;> simp <;> omega

theorem getD_set_ne {l : List Nat} {i j : Nat} (h : i ≠ j) (x d : Nat) :
    (l.set i x).getD j d = l.getD j d := by
  simp [List.getD, List.getElem?_set_ne h]

theorem getD_set_self {l : List Nat} {i : Nat} (h : i < l.length) (x d : Nat) :
    (l.set i x).getD i d = x := by
  simp [List.getD, List.getElem?_set_self h]

/-- Positions outside the written window are untouched by `writeBytesAt`. -/
theorem writeBytesAt_getD_outside (bs : List Nat) (buf : List Nat) (off p d : Nat)
    (h : p < off ∨ off + bs.length ≤ p) :
    (writeBytesAt buf off bs).getD p d = buf.getD p d := by
  induction bs generalizing buf off with
  | nil => rfl
  | cons b bs ih =>
    rw [writeBytesAt, ih (buf.set off b) (off + 1)
      (by simp only [List.length_cons] at h; omega)]
    have hne : off ≠ p := by simp only [List.length_cons] at h; omega
    exact getD_set_ne hne _ _

/-- Inside the window, `writeBytesAt` installs the corresponding byte of `bs`. -/
theorem writeBytesAt_getD_inside (bs : List Nat) (buf : List Nat) (off i d : Nat)
    (hi : i < bs.length) (hlen : off + bs.length ≤ buf.length) :
    (writeBytesAt buf off bs).getD (off + i) d = bs.getD i d := by
  induction bs generalizing buf off i with
  | nil => simp at hi
  | cons b bs ih =>
    cases i with
    | zero =>
      rw [writeBytesAt]
      rw [writeBytesAt_getD_outside _ _ _ _ _ (by left; omega)]
      rw [Nat.add_zero]
      have hofflt : off < buf.length := by simp at hlen; omega
      rw [getD_set_self hofflt]
      rfl
    | succ i =>
      rw [writeBytesAt]
      have hstep := ih (buf.set off b) (off + 1) i (by simp at hi; omega)
        (by simp at hlen ⊢; omega)
      rw [show off + (i + 1) = off + 1 + i by omega]
      rw [hstep]
      rfl

theorem vecResize_getD_lt (xs : List Nat) (n d p : Nat) (hp : p < xs.length)
    (hn : xs.length ≤ n) : (vecResize xs n d).getD p 0 = xs.getD p 0 := by
  unfold vecResize
  rcases Nat.eq_or_lt_of_le hn with h' | h'
  · simp [h'.symm]
  · rw [if_neg (by omega)]
    rw [List.getD_eq_getElem?_getD, List.getD_eq_getElem?_getD]
    rw [List.getElem?_append_left hp]

theorem vecResize_getD_pad (xs : List Nat) (n d p : Nat) (hp : xs.length ≤ p)
    (hn : p < n) : (vecResize xs n d).getD p 0 = d := by
  unfold vecResize
  rw [if_neg (by omega)]
  rw [List.getD_eq_getElem?_getD]
  rw [List.getElem?_append_right hp]
  rw [List.getElem?_replicate]
  simp [show p - xs.length < n - xs.length by omega]

/-- Positions outside `[2+t, 2+t+n)` are untouched by the shifting loop. -/
theorem copyDown_getD_outside (n : Nat) (buf : List Nat) (t p d : Nat)
    (h : p < 2 + t ∨ 2 + t + n ≤ p) :
    (copyDown buf t n).getD p d = buf.getD p d := by
  induction n generalizing buf with
  | zero => rfl
  | succ n ih =>
    have h' : p < 2 + t ∨ 2 + t + n ≤ p := by omega
    rw [copyDown, ih (buf.set (2 + t + n) (buf.getD (2 + n) 0)) h']
    have hne : 2 + t + n ≠ p := by omega
    exact getD_set_ne hne _ _

/-- The shifting loop moves byte `2+i` to byte `2+t+i`.  The loop runs
downwards and only writes at or above `2+t`, so the source window
`[2, 2+n)` is only read before it can be overwritten. -/
theorem copyDown_getD_inside (n : Nat) (buf : List Nat) (t i d : Nat)
    (hi : i < n) (hlen : 2 + t + n ≤ buf.length) :
    (copyDown buf t n).getD (2 + t + i) d = buf.getD (2 + i) d := by
  induction n generalizing buf i with
  | zero => omega
  | succ n ih =>
    rw [copyDown]
    rcases Nat.lt_or_ge i n with h | h
    · have hlen' : 2 + t + n ≤ (buf.set (2 + t + n) (buf.getD (2 + n) 0)).length := by
        rw [List.length_set]; omega
      rw [ih (buf.set (2 + t + n) (buf.getD (2 + n) 0)) i h hlen']
      have hne : 2 + t + n ≠ 2 + i := by omega
      exact getD_set_ne hne _ _
    · have hi' : i = n := by omega
      subst hi'
      have hout : 2 + t + i < 2 + t ∨ 2 + t + i ≤ 2 + t + i := by omega
      rw [copyDown_getD_outside i (buf.set (2 + t + i) (buf.getD (2 + i) 0)) t
        (2 + t + i) d hout]
      have hcl : 2 + t + i < buf.length := by omega
      have hsrc : 2 + i < buf.length := by omega
      rw [getD_set_self hcl]
      rw [List.getD_eq_getElem buf 0 hsrc, List.getD_eq_getElem buf d hsrc]

/-! ## Error and outcome types (errors.rs)

`Outcome` extends the source's `Result` with a `panic` case marking the
program points where the Rust code would abort (out-of-bounds slice
indexing, `expect` on a failed parse). -/

/-- `Error` (errors.rs).  The `Custom(String)` payload is never constructed
by the codec and is omitted. -/
inductive Error
  | outOfBounds
  | invalidFieldType
  | invalidUtf8
  | invalidFormat
  | invalidMessage
  | missingField
  deriving DecidableEq, Repr

/-- A `Result` value, or the marker that the Rust code panicked. -/
inductive Outcome (ε : Type) (α : Type)
  | ok (v : α)
  | err (e : ε)
  | panic
  deriving DecidableEq, Repr

/-! ## Primitive types (primitives.rs) -/

/-- `PrimitiveType` (primitives.rs): the wire `type_id` tags. -/
inductive PrimitiveType
  | u8 | u16 | u32 | u64 | i8 | i16 | i32 | i64
  | f32 | f64 | bool | string | bytes | message | vector | unset
  deriving DecidableEq, Repr

/-- `PrimitiveType as u8`: the `repr(u8)` discriminants. -/
def PrimitiveType.toU8 : PrimitiveType → Nat
  | .u8 => 0 | .u16 => 1 | .u32 => 2 | .u64 => 3
  | .i8 => 4 | .i16 => 5 | .i32 => 6 | .i64 => 7
  | .f32 => 8 | .f64 => 9 | .bool => 10 | .string => 11
  | .bytes => 12 | .message => 13 | .vector => 14 | .unset => 255

/-- `PrimitiveType::from_u8` (primitives.rs). -/
def PrimitiveType.fromU8 : Nat → Option PrimitiveType
  | 0 => some .u8
  | 1 => some .u16
  | 2 => some .u32
  | 3 => some .u64
  | 4 => some .i8
  | 5 => some .i16
  | 6 => some .i32
  | 7 => some .i64
  | 8 => some .f32
  | 9 => some .f64
  | 10 => some .bool
  | 11 => some .string
  | 12 => some .bytes
  | 13 => some .message
  | 14 => some .vector
  | 255 => some .unset
  | _ => none

/-! ## The closed scalar family (lib.rs)

The builder's and reader's scalar operations are generic over the eleven
Rust types implementing `ZpRead`/`ZpWrite` (lib.rs macros).  `RustScalar`
is that closed family; a value of type `T` is modelled by its unsigned
bit pattern (`iN` via its two's-complement pattern, exactly the `as uN`
cast the source performs; `fN` via `to_bits`/`from_bits`, which is how
the source reads and writes floats, so NaN payloads are preserved
byte-for-byte; `bool` as 0/1). -/

/-- The eleven Rust types of the closed scalar set. -/
inductive RustScalar
  | u8 | u16 | u32 | u64 | i8 | i16 | i32 | i64 | f32 | f64 | bool
  deriving DecidableEq, Repr

/-- `T::size()` / `value.size()` from the `impl_primitive_read/write!`
macro expansions (lib.rs). -/
def RustScalar.size : RustScalar → Nat
  | .u8 => 1 | .u16 => 2 | .u32 => 4 | .u64 => 8
  | .i8 => 1 | .i16 => 2 | .i32 => 4 | .i64 => 8
  | .f32 => 4 | .f64 => 8 | .bool => 1

/-- The `type_id` that `MessageBuilder::get_type_id::<T>` (builder.rs)
returns for each closed-set type. -/
def RustScalar.typeId : RustScalar → Nat
  | .u8 => 0 | .u16 => 1 | .u32 => 2 | .u64 => 3
  | .i8 => 4 | .i16 => 5 | .i32 => 6 | .i64 => 7
  | .f32 => 8 | .f64 => 9 | .bool => 10

/-- Wellformedness of a modelled value: its bit pattern fits the type's
width (`bool` patterns are 0 or 1, matching Rust's `bool as u8`). -/
def RustScalar.wf : RustScalar → Nat → Prop
  | .bool, v => v < 2
  | t, v => v < 256 ^ t.size

/-- The bytes `value.write` stores (lib.rs / primitives.rs):
`to_le_bytes` of the value's bit pattern; `bool` writes `value as u8`. -/
def encodeScalar (t : RustScalar) (v : Nat) : List Nat :=
  leBytes v t.size

/-- The value `ENDIANNESS.read_TYPE` recovers (primitives.rs):
`from_le_bytes` for the integer patterns, `!= 0` for `bool`. -/
def decodeScalar (t : RustScalar) (buf : List Nat) (off : Nat) : Nat :=
  match t with
  | .bool => if readLE buf off 1 = 0 then 0 else 1
  | _ => readLE buf off t.size

/-- `<T as ZpRead>::read` (lib.rs): bounds check, then decode. -/
def zpRead (t : RustScalar) (buf : List Nat) (off : Nat) : Except Error Nat :=
  if off + t.size > buf.length then .error .outOfBounds
  else .ok (decodeScalar t buf off)

/-! ## MessageBuilder (builder.rs) -/

/-- A field-table entry accumulated by the builder (builder.rs). -/
structure FieldEntry where
  type_id : Nat
  offset : Nat
  deriving DecidableEq, Repr

/-- `MessageBuilder` (builder.rs). -/
structure MessageBuilder where
  buffer : List Nat
  field_entries : List FieldEntry
  field_count : Nat
  payload_offset : Nat
  deriving DecidableEq, Repr

/-- `MessageBuilder::new`: two reserved header bytes, payload cursor at 2. -/
def MessageBuilder.new : MessageBuilder :=
  { buffer := [0, 0], field_entries := [], field_count := 0, payload_offset := 2 }

/-- `Vec::<FieldEntry>::resize(n, FieldEntry { type_id: 0, offset: 0 })`. -/
def resizeEntries (xs : List FieldEntry) (n : Nat) : List FieldEntry :=
  if n ≤ xs.length then xs.take n
  else xs ++ List.replicate (n - xs.length) { type_id := 0, offset := 0 }

/-- `MessageBuilder::ensure_field_index` (builder.rs): reject `k ≥ MAX_FIELDS`
(65535), then grow the entry table to `k+1` entries, the new ones defaulted
to `FieldEntry { type_id: 0, offset: 0 }`. -/
def MessageBuilder.ensureFieldIndex (b : MessageBuilder) (k : Nat) :
    Except Error Unit × MessageBuilder :=
  if k ≥ 65535 then (.error .outOfBounds, b)
  else if k ≥ b.field_count then
    (.ok (), { b with
               field_count := k + 1,
               field_entries := resizeEntries b.field_entries (k + 1) })
  else (.ok (), b)

/-- The argument of `set_scalar<T: ZpWrite>`: either a value of one of the
eleven closed-set types, or a value of any other `ZpWrite` type — for which
`get_type_id` (builder.rs) fails before the value is ever used, so no
further data about it needs to be carried. -/
inductive WriteVal
  | scalar (t : RustScalar) (v : Nat)
  | nonScalar
  deriving DecidableEq, Repr

/-- `MessageBuilder::get_type_id::<T>` (builder.rs): match on the type name;
the eleven closed-set types map to their tag, anything else is
`InvalidFieldType`. -/
def getTypeId : WriteVal → Except Error Nat
  | .scalar t _ => .ok t.typeId
  | .nonScalar => .error .invalidFieldType

/-- `MessageBuilder::set_scalar` (builder.rs).  Order matters and is kept:
`ensure_field_index` mutates the entry table *before* `get_type_id` can
fail, so a failed call still grows the table. -/
def MessageBuilder.setScalar (b : MessageBuilder) (k : Nat) (w : WriteVal) :
    Except Error Unit × MessageBuilder :=
  match b.ensureFieldIndex k with
  | (.error e, b1) => (.error e, b1)
  | (.ok _, b1) =>
    match getTypeId w, w with
    | .error e, _ => (.error e, b1)
    | .ok tid, .scalar t v =>
      let fieldOffset := b1.payload_offset % 2 ^ 32
      let required := b1.payload_offset + t.size
      let buf := if required > b1.buffer.length then vecResize b1.buffer required 0
                 else b1.buffer
      if b1.payload_offset + t.size > buf.length then
        (.error .outOfBounds, { b1 with buffer := buf })
      else
        (.ok (), { b1 with
                   buffer := writeBytesAt buf b1.payload_offset (encodeScalar t v),
                   field_entries := b1.field_entries.set k
                     { type_id := tid, offset := fieldOffset },
                   payload_offset := b1.payload_offset + t.size })
    | .ok _, .nonScalar => (.error .invalidFieldType, b1)

/-- `MessageBuilder::set_string` (builder.rs).  The `&str` argument is
modelled by its UTF-8 byte list. -/
def MessageBuilder.setString (b : MessageBuilder) (k : Nat) (s : List Nat) :
    Except Error Unit × MessageBuilder :=
  match b.ensureFieldIndex k with
  | (.error e, b1) => (.error e, b1)
  | (.ok _, b1) =>
    let fieldOffset := b1.payload_offset % 2 ^ 32
    let required := b1.payload_offset + 4 + s.length
    let buf := if required > b1.buffer.length then vecResize b1.buffer required 0
               else b1.buffer
    let buf2 := writeBytesAt buf b1.payload_offset (leBytes (s.length % 2 ^ 32) 4)
    let buf3 := writeBytesAt buf2 (b1.payload_offset + 4) s
    (.ok (), { b1 with
               buffer := buf3,
               field_entries := b1.field_entries.set k
                 { type_id := 11, offset := fieldOffset },
               payload_offset := b1.payload_offset + 4 + s.length })

/-- The field-table writing loop of `MessageBuilder::finish` (builder.rs):
one `type_id` byte followed by a 4-byte little-endian offset per entry. -/
def writeTable : List FieldEntry → List Nat → Nat → List Nat
  | [], buf, _ => buf
  | e :: es, buf, off =>
    let buf1 := buf.set off e.type_id
    let buf2 := writeBytesAt buf1 (off + 1) (leBytes e.offset 4)
    writeTable es buf2 (off + 5)

/-- `MessageBuilder::finish` (builder.rs): write the field count, grow the
buffer by the field-table size, shift the payload up, fix offsets up by the
table size (a `u32` add), write the table, truncate. -/
def MessageBuilder.finish (b : MessageBuilder) : List Nat :=
  let buf1 := writeBytesAt b.buffer 0 (leBytes b.field_count 2)
  let tableSize := b.field_count * 5
  let cpo := b.payload_offset
  let buf2 := vecResize buf1 (cpo + tableSize) 0
  let buf3 := copyDown buf2 tableSize (cpo - 2)
  let entries := b.field_entries.map fun e =>
    { e with offset := (e.offset + tableSize) % 2 ^ 32 }
  let buf4 := writeTable entries buf3 2
  buf4.take (2 + tableSize + (cpo - 2))

/-! ## MessageReader (reader.rs) -/

/-- `MessageReader` (reader.rs). -/
structure MessageReader where
  buffer : List Nat
  field_count : Nat
  field_table_offset : Nat
  deriving DecidableEq, Repr

/-- `MessageReader::new` (reader.rs): require 2 header bytes, read `N`,
require `2 + 5·N` bytes.  Payload offsets are not inspected. -/
def MessageReader.new (buffer : List Nat) : Except Error MessageReader :=
  if buffer.length < 2 then .error .invalidMessage
  else
    let fc := readU16 buffer 0
    if buffer.length < 2 + fc * 5 then .error .invalidMessage
    else .ok { buffer := buffer, field_count := fc, field_table_offset := 2 }

/-- `MessageReader::field_entry` (reader.rs): bounds-check the index, read
the entry's `type_id` (a direct index — panics out of bounds), decode it,
return `None` for `Unset`, else read the 4-byte offset. -/
def MessageReader.fieldEntry (r : MessageReader) (k : Nat) :
    Outcome Error (Option (PrimitiveType × Nat)) :=
  if k ≥ r.field_count then .err .outOfBounds
  else
    let eo := r.field_table_offset + k * 5
    match r.buffer.get? eo with
    | none => .panic
    | some tid =>
      match PrimitiveType.fromU8 tid with
      | none => .err .invalidFieldType
      | some pt =>
        if pt = .unset then .ok none
        else
          match readU32? r.buffer (eo + 1) with
          | none => .panic
          | some off => .ok (some (pt, off))

/-- `MessageReader::has_field` (reader.rs): `Ok(false)` beyond the count,
else compare the entry's `type_id` byte against `Unset` (255). -/
def MessageReader.hasField (r : MessageReader) (k : Nat) : Outcome Error Bool :=
  if k ≥ r.field_count then .ok false
  else
    match r.buffer.get? (r.field_table_offset + k * 5) with
    | none => .panic
    | some tid => .ok (decide (tid ≠ 255))

/-- `MessageReader::try_get_scalar::<T>` (reader.rs): note that the entry's
`type_id` is discarded (`Some((_, field_offset))`) and the payload is read
as `T` regardless. -/
def MessageReader.tryGetScalar (r : MessageReader) (t : RustScalar) (k : Nat) :
    Outcome Error (Option Nat) :=
  match r.fieldEntry k with
  | .panic => .panic
  | .err e => .err e
  | .ok none => .ok none
  | .ok (some (_, off)) =>
    match zpRead t r.buffer off with
    | .error e => .err e
    | .ok v => .ok (some v)

/-- `MessageReader::get_scalar::<T>` (reader.rs): absence is `MissingField`. -/
def MessageReader.getScalar (r : MessageReader) (t : RustScalar) (k : Nat) :
    Outcome Error Nat :=
  match r.tryGetScalar t k with
  | .panic => .panic
  | .err e => .err e
  | .ok none => .err .missingField
  | .ok (some v) => .ok v

/-- A UTF-8 validity checker for byte lists, the model of
`core::str::from_utf8` succeeding (reader.rs). -/
def utf8Valid : List Nat → Bool
  | [] => true
  | b :: rest =>
    if b < 0x80 then utf8Valid rest
    else if b < 0xC2 then false
    else if b < 0xE0 then
      match rest with
      | c :: r => 0x80 ≤ c && c < 0xC0 && utf8Valid r
      | [] => false
    else if b < 0xF0 then
      match rest with
      | c1 :: c2 :: r =>
        (if b = 0xE0 then 0xA0 ≤ c1 && c1 < 0xC0
         else if b = 0xED then 0x80 ≤ c1 && c1 < 0xA0
         else 0x80 ≤ c1 && c1 < 0xC0) &&
        (0x80 ≤ c2 && c2 < 0xC0) && utf8Valid r
      | _ => false
    else if b < 0xF5 then
      match rest with
      | c1 :: c2 :: c3 :: r =>
        (if b = 0xF0 then 0x90 ≤ c1 && c1 < 0xC0
         else if b = 0xF4 then 0x80 ≤ c1 && c1 < 0x90
         else 0x80 ≤ c1 && c1 < 0xC0) &&
        (0x80 ≤ c2 && c2 < 0xC0) && (0x80 ≤ c3 && c3 < 0xC0) && utf8Valid r
      | _ => false
    else false

/-- `MessageReader::try_get_string` (reader.rs).  The 4-byte length word is
read at the table-supplied offset *before* any bounds check — `read_u32`
slices `buffer[offset..offset+4]`, which panics when the offset points past
the end of the buffer. -/
def MessageReader.tryGetString (r : MessageReader) (k : Nat) :
    Outcome Error (Option (List Nat)) :=
  match r.fieldEntry k with
  | .panic => .panic
  | .err e => .err e
  | .ok none => .ok none
  | .ok (some (pt, off)) =>
    if pt ≠ .string then .err .invalidFieldType
    else
      match readU32? r.buffer off with
      | none => .panic
      | some len =>
        if off + 4 + len > r.buffer.length then .err .outOfBounds
        else
          let stringBytes := (r.buffer.drop (off + 4)).take len
          if utf8Valid stringBytes then .ok (some stringBytes)
          else .err .invalidUtf8

/-- `MessageReader::get_string` (reader.rs). -/
def MessageReader.getString (r : MessageReader) (k : Nat) :
    Outcome Error (List Nat) :=
  match r.tryGetString k with
  | .panic => .panic
  | .err e => .err e
  | .ok none => .err .missingField
  | .ok (some s) => .ok s

/-! ## Concrete probe buffers -/

/-- The buffer produced by `set_scalar(1, 42u8)` on a fresh builder and
`finish()`: field index 0 was never set. -/
def skippedSlotBuf : List Nat :=
  (MessageBuilder.new.setScalar 1 (.scalar .u8 42)).2.finish

/-- The buffer produced by `set_string(0, "hello")` and `finish()`. -/
def helloStringBuf : List Nat :=
  (MessageBuilder.new.setString 0 [104, 101, 108, 108, 111]).2.finish

/-- An adversarial 7-byte buffer: header `N = 1`, one field-table entry with
`type_id = 11` (string) and offset `100`, far past the end of the buffer. -/
def adversarialBuf : List Nat := [1, 0, 11, 100, 0, 0, 0]

/-- Open a buffer and run an accessor, collapsing the construction error
case (used to state concrete reader facts in one expression). -/
def withReader {α : Type} (buf : List Nat) (f : MessageReader → Outcome Error α) :
    Outcome Error α :=
  match MessageReader.new buf with
  | .ok r => f r
  | .error _ => .panic

/-! ## C6: concrete wire layout S1 -/

/-- C6: building a message in which field 0 is set to the `u32` value 42
and finishing yields exactly the 11-byte buffer
`01 00 02 07 00 00 00 2A 00 00 00` — header `N = 1`, a field-table entry
with `type_id` 2 and buffer-absolute offset 7, then the 4-byte
little-endian payload. -/
theorem c6_wire_layout_s1 :
    (MessageBuilder.new.setScalar 0 (.scalar .u32 42)).1 = .ok () ∧
    (MessageBuilder.new.setScalar 0 (.scalar .u32 42)).2.finish =
      [1, 0, 2, 7, 0, 0, 0, 42, 0, 0, 0] := by
  constructor <;> rfl

/-! ## C5: reader construction raises-iff -/

/-- C5: `MessageReader::new(buf)` returns `Err(InvalidMessage)` exactly when
`|buf| < 2` or `|buf| < 2 + 5·N` with `N` the little-endian `u16` at
bytes 0..2; otherwise it returns `Ok` with `field_count = N` (and stores
the buffer unchanged — no payload offset is inspected). -/
theorem c5_reader_new_raises_iff (buf : List Nat) :
    (MessageReader.new buf = .error .invalidMessage ↔
      buf.length < 2 ∨ buf.length < 2 + 5 * readU16 buf 0) ∧
    (∀ r, MessageReader.new buf = .ok r →
      r.field_count = readU16 buf 0 ∧ r.buffer = buf ∧ r.field_table_offset = 2) := by
  by_cases h1 : buf.length < 2
  · constructor
    · simp [MessageReader.new, h1]
    · intro r hr
      rw [MessageReader.new] at hr
      simp [h1] at hr
  · by_cases h2 : buf.length < 2 + readU16 buf 0 * 5
    · constructor
      · simp [MessageReader.new, h1, h2]
        omega
      · intro r hr
        rw [MessageReader.new] at hr
        simp [h1, h2] at hr
    · constructor
      · simp [MessageReader.new, h1, h2]
        omega
      · intro r hr
        rw [MessageReader.new] at hr
        simp [h1, h2] at hr
        subst hr
        exact ⟨rfl, rfl, rfl⟩

/-! ## C3: skipped slots are *not* emitted as `Unset` (code bug)

Spec §4.2 requires that intermediate entries created when setting a higher
index default to the `Unset` sentinel (255), so `has_field` reports them
absent.  `ensure_field_index` (builder.rs:205) instead defaults them to
`FieldEntry { type_id: 0, offset: 0 }` — `type_id` 0 is the `u8` tag — so
the finished buffer carries a phantom present `u8` field and `has_field`
returns `true` for a slot that was never set. -/

/-- C3 evaluated at the failing input `set_scalar(1, 42u8); finish()`:
the field-table `type_id` byte for the untouched index 0 is 0 (the `u8`
tag), not the `Unset` sentinel 255, and `has_field(0)` on a reader over
the buffer returns `Ok(true)`, not `false`. -/
theorem c3_skipped_slot_not_unset :
    skippedSlotBuf.getD 2 0 = 0 ∧ skippedSlotBuf.getD 2 0 ≠ 255 ∧
    withReader skippedSlotBuf (fun r => r.hasField 0) = .ok true := by
  refine ⟨rfl, by decide, rfl⟩

/-! ## C4: scalar accessors do not check the stored `type_id` (code bug)

Spec §4.3/§9 requires `get_scalar::<T>` to return `InvalidFieldType` when
the stored `type_id` differs from `T`'s tag.  `try_get_scalar`
(reader.rs:87-92) discards the entry's type (`Some((_, field_offset))`)
and reinterprets the payload bytes as `T`. -/

/-- C4 evaluated at the failing input: field 0 written as the string
`"hello"` (`type_id` 11) and read back with `get_scalar::<u8>` yields
`Ok(5)` — the first byte of the string's length prefix — instead of the
`InvalidFieldType` error the claim requires. -/
theorem c4_scalar_read_ignores_type_id :
    withReader helloStringBuf (fun r => r.getScalar .u8 0) = .ok 5 ∧
    withReader helloStringBuf (fun r => r.getScalar .u8 0) ≠
      .err .invalidFieldType := by
  refine ⟨rfl, by decide⟩

/-! ## C2: accessors can read out of bounds and panic (code bug)

`try_get_string` (reader.rs:128) reads the 4-byte length word at the
table-supplied field offset with `Endian::Little.read_u32`, which slices
`buffer[offset..offset+4]` *before* any bounds check; when the stored
offset points past the end of the buffer the slice panics. -/

/-- C2 evaluated at the failing input: the 7-byte buffer
`01 00 0B 64 00 00 00` passes `MessageReader::new`, and
`try_get_string(0)` reaches the unguarded length-word read at offset 100
and panics instead of returning a typed error. -/
theorem c2_try_get_string_panics :
    (MessageReader.new adversarialBuf).isOk = true ∧
    withReader adversarialBuf (fun r => r.tryGetString 0) = .panic := by
  refine ⟨rfl, rfl⟩

/-! ## Characterizing the builder state after a single `set_scalar` -/

theorem set_append_len {α : Type} (pre : List α) (x b : α) (rest : List α) :
    (pre ++ x :: rest).set pre.length b = pre ++ b :: rest := by
  induction pre with
  | nil => rfl
  | cons a pre ih => simpa [List.set] using ih

/-- Writing `bs` over a zero pad of the same length replaces the pad. -/
theorem writeBytesAt_append_replicate (bs : List Nat) (pre : List Nat) (d : Nat) :
    writeBytesAt (pre ++ List.replicate bs.length d) pre.length bs = pre ++ bs := by
  induction bs generalizing pre with
  | nil => simp [writeBytesAt]
  | cons b bs ih =>
    rw [List.length_cons, List.replicate_succ, writeBytesAt,
      set_append_len pre d b (List.replicate bs.length d)]
    have := ih (pre ++ [b])
    simpa [List.append_assoc] using this

theorem replicate_set {α : Type} (k : Nat) (d x : α) :
    (List.replicate (k + 1) d).set k x = List.replicate k d ++ [x] := by
  rw [List.replicate_succ']
  have := set_append_len (List.replicate k d) d x ([] : List α)
  simpa [List.length_replicate] using this

/-- The builder state after `set_scalar(k, v)` on a fresh builder: the call
succeeds, the header bytes are followed by the encoded value, slots
`0..k-1` hold the `⟨0, 0⟩` default entry, and slot `k` records the type's
tag with payload offset 2. -/
theorem setScalar_new (t : RustScalar) (v k : Nat) (hk : k < 65535) :
    MessageBuilder.new.setScalar k (.scalar t v) =
      (.ok (), { buffer := [0, 0] ++ encodeScalar t v,
                 field_entries := List.replicate k { type_id := 0, offset := 0 } ++
                   [{ type_id := t.typeId, offset := 2 }],
                 field_count := k + 1,
                 payload_offset := 2 + t.size }) := by
  have hsz : 1 ≤ t.size := by cases t <;> simp [RustScalar.size]
  have hens : MessageBuilder.new.ensureFieldIndex k =
      (.ok (), { buffer := [0, 0],
                 field_entries := List.replicate (k + 1) { type_id := 0, offset := 0 },
                 field_count := k + 1,
                 payload_offset := 2 }) := by
    unfold MessageBuilder.ensureFieldIndex MessageBuilder.new resizeEntries
    rw [if_neg (by omega), if_pos (by simp)]
    simp
  unfold MessageBuilder.setScalar
  rw [hens]
  dsimp only [getTypeId]
  have hresize : vecResize [0, 0] (2 + t.size) 0 =
      [0, 0] ++ List.replicate t.size 0 := by
    unfold vecResize
    rw [if_neg (by simp; omega)]
    simp
  have hc1 : 2 + t.size > ([0, 0] : List Nat).length := by simp; omega
  rw [if_pos hc1, hresize]
  have hc2 : ¬2 + t.size > ([0, 0] ++ List.replicate t.size 0).length := by
    simp
    omega
  rw [if_neg hc2]
  have hmod : 2 % 2 ^ 32 = 2 := by norm_num
  have hwrite : writeBytesAt ([0, 0] ++ List.replicate t.size 0) 2
      (encodeScalar t v) = [0, 0] ++ encodeScalar t v := by
    have hlen : (encodeScalar t v).length = t.size := leBytes_length v t.size
    have := writeBytesAt_append_replicate (encodeScalar t v) [0, 0] 0
    rw [hlen] at this
    simpa using this
  rw [hmod, hwrite, replicate_set]

/-! ## Characterizing `finish` byte-by-byte -/

theorem writeTable_length (es : List FieldEntry) (buf : List Nat) (off : Nat) :
    (writeTable es buf off).length = buf.length := by
  induction es generalizing buf off with
  | nil => rfl
  | cons e es ih =>
    rw [writeTable, ih]
    rw [writeBytesAt_length, List.length_set]

/-- Positions outside the window `[off, off + 5·|es|)` are untouched by the
field-table writing loop. -/
theorem writeTable_getD_outside (es : List FieldEntry) (buf : List Nat)
    (off p d : Nat) (h : p < off ∨ off + 5 * es.length ≤ p) :
    (writeTable es buf off).getD p d = buf.getD p d := by
  induction es generalizing buf off with
  | nil => rfl
  | cons e es ih =>
    rw [writeTable]
    rw [ih _ (off + 5) (by simp only [List.length_cons] at h; omega)]
    rw [writeBytesAt_getD_outside _ _ _ _ _
      (by rw [leBytes_length]; simp only [List.length_cons] at h; omega)]
    have hne : off ≠ p := by simp only [List.length_cons] at h; omega
    exact getD_set_ne hne _ _

/-- The field-table writing loop stores entry `j`'s `type_id` at
`off + 5·j`. -/
theorem writeTable_getD_type (es : List FieldEntry) (buf : List Nat)
    (off j d : Nat) (hj : j < es.length)
    (hlen : off + 5 * es.length ≤ buf.length) :
    (writeTable es buf off).getD (off + 5 * j) d =
      (es.getD j { type_id := 0, offset := 0 }).type_id := by
  induction es generalizing buf off j with
  | nil => simp at hj
  | cons e es ih =>
    rw [writeTable]
    cases j with
    | zero =>
      rw [writeTable_getD_outside _ _ _ _ _ (by omega)]
      rw [writeBytesAt_getD_outside _ _ _ _ _ (by left; omega)]
      simp only [Nat.mul_zero, Nat.add_zero]
      have hofflt : off < buf.length := by simp only [List.length_cons] at hlen; omega
      rw [getD_set_self hofflt]
      rfl
    | succ j =>
      have harith : off + 5 * (j + 1) = (off + 5) + 5 * j := by ring
      rw [harith]
      rw [ih _ (off + 5) j (by simp only [List.length_cons] at hj; omega)
        (by rw [writeBytesAt_length, List.length_set]
            simp only [List.length_cons] at hlen; omega)]
      rfl

/-- The field-table writing loop stores byte `i` of entry `j`'s 4-byte
little-endian offset at `off + 5·j + 1 + i`. -/
theorem writeTable_getD_offset (es : List FieldEntry) (buf : List Nat)
    (off j i d : Nat) (hj : j < es.length) (hi : i < 4)
    (hlen : off + 5 * es.length ≤ buf.length) :
    (writeTable es buf off).getD (off + 5 * j + 1 + i) d =
      (leBytes (es.getD j { type_id := 0, offset := 0 }).offset 4).getD i 0 := by
  induction es generalizing buf off j with
  | nil => simp at hj
  | cons e es ih =>
    rw [writeTable]
    cases j with
    | zero =>
      rw [writeTable_getD_outside _ _ _ _ _ (by omega)]
      simp only [Nat.mul_zero, Nat.add_zero]
      have hwlen : (off + 1) + (leBytes e.offset 4).length ≤ (buf.set off e.type_id).length := by
        rw [leBytes_length, List.length_set]
        simp only [List.length_cons] at hlen; omega
      have := writeBytesAt_getD_inside (leBytes e.offset 4) (buf.set off e.type_id)
        (off + 1) i d (by rw [leBytes_length]; omega) hwlen
      rw [show off + 0 + 1 + i = off + 1 + i by omega]
      rw [this]
      have hd : (leBytes e.offset 4).getD i d = (leBytes e.offset 4).getD i 0 := by
        have hilt : i < (leBytes e.offset 4).length := by rw [leBytes_length]; omega
        rw [List.getD_eq_getElem _ _ hilt, List.getD_eq_getElem _ _ hilt]
      rw [hd]
      rfl
    | succ j =>
      have harith : off + 5 * (j + 1) + 1 + i = (off + 5) + 5 * j + 1 + i := by ring
      rw [harith]
      rw [ih _ (off + 5) j (by simp only [List.length_cons] at hj; omega)
        (by rw [writeBytesAt_length, List.length_set]
            simp only [List.length_cons] at hlen; omega)]
      rfl

/-- The buffer of `finish` just before the final truncation. -/
def finishPre (b : MessageBuilder) : List Nat :=
  copyDown
    (vecResize (writeBytesAt b.buffer 0 (leBytes b.field_count 2))
      (b.payload_offset + b.field_count * 5) 0)
    (b.field_count * 5) (b.payload_offset - 2)

/-- The field entries of `finish` after the offset fix-up. -/
def finishEntries (b : MessageBuilder) : List FieldEntry :=
  b.field_entries.map fun e =>
    { e with offset := (e.offset + b.field_count * 5) % 2 ^ 32 }

theorem finish_unfold (b : MessageBuilder) :
    b.finish = (writeTable (finishEntries b) (finishPre b) 2).take
      (2 + b.field_count * 5 + (b.payload_offset - 2)) := rfl

/-- Under the builder invariant `|buffer| = payload_offset ≥ 2` the final
truncation of `finish` is a no-op. -/
theorem finish_eq (b : MessageBuilder) (hpo : 2 ≤ b.payload_offset)
    (hbuf : b.buffer.length = b.payload_offset) :
    b.finish = writeTable (finishEntries b) (finishPre b) 2 := by
  rw [finish_unfold]
  have hlen : (writeTable (finishEntries b) (finishPre b) 2).length =
      b.payload_offset + b.field_count * 5 := by
    rw [writeTable_length]
    unfold finishPre
    rw [copyDown_length, vecResize_length]
  have harith : 2 + b.field_count * 5 + (b.payload_offset - 2) =
      b.payload_offset + b.field_count * 5 := by omega
  rw [harith, ← hlen, List.take_length]

theorem finishPre_length (b : MessageBuilder) :
    (finishPre b).length = b.payload_offset + b.field_count * 5 := by
  unfold finishPre
  rw [copyDown_length, vecResize_length]

theorem finishEntries_length (b : MessageBuilder) :
    (finishEntries b).length = b.field_entries.length := by
  unfold finishEntries
  rw [List.length_map]

theorem finishPre_header (b : MessageBuilder) (i : Nat) (hi : i < 2)
    (hpo : 2 ≤ b.payload_offset) (hbuf : b.buffer.length = b.payload_offset) :
    (finishPre b).getD i 0 = (leBytes b.field_count 2).getD i 0 := by
  unfold finishPre
  rw [copyDown_getD_outside _ _ _ _ _ (by omega)]
  have hxs : (writeBytesAt b.buffer 0 (leBytes b.field_count 2)).length =
      b.payload_offset := by rw [writeBytesAt_length, hbuf]
  rw [vecResize_getD_lt _ _ _ _ (by omega) (by omega)]
  have := writeBytesAt_getD_inside (leBytes b.field_count 2) b.buffer 0 i 0
    (by rw [leBytes_length]; omega) (by rw [leBytes_length]; omega)
  simpa using this

theorem finishPre_payload (b : MessageBuilder) (i : Nat)
    (hi : i < b.payload_offset - 2)
    (hbuf : b.buffer.length = b.payload_offset) :
    (finishPre b).getD (2 + b.field_count * 5 + i) 0 = b.buffer.getD (2 + i) 0 := by
  unfold finishPre
  rw [copyDown_getD_inside _ _ _ _ _ hi
    (by rw [vecResize_length]; omega)]
  have hxs : (writeBytesAt b.buffer 0 (leBytes b.field_count 2)).length =
      b.payload_offset := by rw [writeBytesAt_length, hbuf]
  rw [vecResize_getD_lt _ _ _ _ (by omega) (by omega)]
  rw [writeBytesAt_getD_outside _ _ _ _ _ (by rw [leBytes_length]; omega)]

theorem finish_length (b : MessageBuilder) (hpo : 2 ≤ b.payload_offset) :
    b.finish.length = b.payload_offset + b.field_count * 5 := by
  rw [finish_unfold, List.length_take, writeTable_length, finishPre_length]
  omega

/-- Byte `i` of the finished buffer's 2-byte header is byte `i` of the
little-endian field count. -/
theorem finish_getD_header (b : MessageBuilder) (i : Nat) (hi : i < 2)
    (hpo : 2 ≤ b.payload_offset) (hbuf : b.buffer.length = b.payload_offset) :
    b.finish.getD i 0 = (leBytes b.field_count 2).getD i 0 := by
  rw [finish_eq b hpo hbuf]
  rw [writeTable_getD_outside _ _ _ _ _ (by omega)]
  exact finishPre_header b i hi hpo hbuf

/-- Byte `2 + 5·j` of the finished buffer is entry `j`'s `type_id`. -/
theorem finish_getD_type (b : MessageBuilder) (j : Nat)
    (hj : j < b.field_entries.length)
    (hfc : b.field_entries.length = b.field_count)
    (hpo : 2 ≤ b.payload_offset) (hbuf : b.buffer.length = b.payload_offset) :
    b.finish.getD (2 + 5 * j) 0 =
      (b.field_entries.getD j { type_id := 0, offset := 0 }).type_id := by
  rw [finish_eq b hpo hbuf]
  rw [writeTable_getD_type (finishEntries b) (finishPre b) 2 j 0
    (by rw [finishEntries_length]; omega)
    (by rw [finishPre_length, finishEntries_length]; omega)]
  have hjlt : j < (finishEntries b).length := by rw [finishEntries_length]; omega
  rw [List.getD_eq_getElem _ _ hjlt,
    List.getD_eq_getElem _ _ (show j < b.field_entries.length by omega)]
  unfold finishEntries
  rw [List.getElem_map]

/-- Bytes `2 + 5·j + 1 .. + 4` of the finished buffer are the little-endian
fixed-up offset of entry `j` (`offset + 5·N`, a `u32` addition). -/
theorem finish_getD_offset (b : MessageBuilder) (j i : Nat)
    (hj : j < b.field_entries.length) (hi : i < 4)
    (hfc : b.field_entries.length = b.field_count)
    (hpo : 2 ≤ b.payload_offset) (hbuf : b.buffer.length = b.payload_offset) :
    b.finish.getD (2 + 5 * j + 1 + i) 0 =
      (leBytes (((b.field_entries.getD j { type_id := 0, offset := 0 }).offset +
        b.field_count * 5) % 2 ^ 32) 4).getD i 0 := by
  rw [finish_eq b hpo hbuf]
  rw [writeTable_getD_offset (finishEntries b) (finishPre b) 2 j i 0
    (by rw [finishEntries_length]; omega) hi
    (by rw [finishPre_length, finishEntries_length]; omega)]
  have hjlt : j < (finishEntries b).length := by rw [finishEntries_length]; omega
  rw [List.getD_eq_getElem _ _ hjlt,
    List.getD_eq_getElem _ _ (show j < b.field_entries.length by omega)]
  unfold finishEntries
  rw [List.getElem_map]

/-- Byte `2 + 5·N + i` of the finished buffer is payload byte `2 + i` of the
builder's working buffer. -/
theorem finish_getD_payload (b : MessageBuilder) (i : Nat)
    (hi : i < b.payload_offset - 2)
    (hfc : b.field_entries.length = b.field_count)
    (hpo : 2 ≤ b.payload_offset) (hbuf : b.buffer.length = b.payload_offset) :
    b.finish.getD (2 + 5 * b.field_count + i) 0 = b.buffer.getD (2 + i) 0 := by
  rw [finish_eq b hpo hbuf]
  rw [writeTable_getD_outside _ _ _ _ _
    (by rw [finishEntries_length]; omega)]
  have := finishPre_payload b i hi hbuf
  rw [show 2 + 5 * b.field_count + i = 2 + b.field_count * 5 + i by ring]
  exact this

/-! ## Reader-side helpers for the round trip -/

theorem getD_append_singleton {α : Type} (l : List α) (x d : α) :
    (l ++ [x]).getD l.length d = x := by
  induction l with
  | nil => rfl
  | cons a l ih => simpa using ih

theorem get?_eq_some_getD (l : List Nat) (p : Nat) (hp : p < l.length) :
    l.get? p = some (l.getD p 0) := by
  rw [List.getD_eq_getElem _ _ hp, List.get?_eq_getElem?,
    List.getElem?_eq_getElem hp]

/-- The `PrimitiveType` that `PrimitiveType::from_u8` recovers from each
closed-set scalar's tag. -/
def primOf : RustScalar → PrimitiveType
  | .u8 => .u8 | .u16 => .u16 | .u32 => .u32 | .u64 => .u64
  | .i8 => .i8 | .i16 => .i16 | .i32 => .i32 | .i64 => .i64
  | .f32 => .f32 | .f64 => .f64 | .bool => .bool

theorem fromU8_typeId (t : RustScalar) :
    PrimitiveType.fromU8 t.typeId = some (primOf t) := by
  cases t <;> rfl

theorem primOf_ne_unset (t : RustScalar) : primOf t ≠ PrimitiveType.unset := by
  cases t <;> simp [primOf]

/-- Decoding a window that holds `encodeScalar t v` recovers `v` for every
wellformed `v` (little-endian recombination for the integer patterns, the
`!= 0` test for `bool`). -/
theorem decode_encode (t : RustScalar) (v : Nat) (buf : List Nat) (off : Nat)
    (hv : t.wf v)
    (h : ∀ i, i < t.size → buf.getD (off + i) 0 = (encodeScalar t v).getD i 0) :
    decodeScalar t buf off = v := by
  have hr : readLE buf off t.size = v % 256 ^ t.size :=
    readLE_leBytes v t.size buf off h
  cases t with
  | bool =>
    have hv2 : v < 2 := hv
    have h1 : readLE buf off 1 = v := by
      rw [show (1 : Nat) = RustScalar.bool.size from rfl, hr]
      exact Nat.mod_eq_of_lt (by simpa [RustScalar.size] using by omega)
    unfold decodeScalar
    rw [h1]
    have h0 : v = 0 ∨ v = 1 := by omega
    rcases h0 with h0 | h0 <;> simp [h0]
  | u8 => exact hr.trans (Nat.mod_eq_of_lt hv)
  | u16 => exact hr.trans (Nat.mod_eq_of_lt hv)
  | u32 => exact hr.trans (Nat.mod_eq_of_lt hv)
  | u64 => exact hr.trans (Nat.mod_eq_of_lt hv)
  | i8 => exact hr.trans (Nat.mod_eq_of_lt hv)
  | i16 => exact hr.trans (Nat.mod_eq_of_lt hv)
  | i32 => exact hr.trans (Nat.mod_eq_of_lt hv)
  | i64 => exact hr.trans (Nat.mod_eq_of_lt hv)
  | f32 => exact hr.trans (Nat.mod_eq_of_lt hv)
  | f64 => exact hr.trans (Nat.mod_eq_of_lt hv)

/-- `MessageReader::new` succeeds on any buffer long enough for its header
and field table. -/
theorem MessageReader.new_ok (buf : List Nat) (h2 : 2 ≤ buf.length)
    (hN : 2 + readU16 buf 0 * 5 ≤ buf.length) :
    MessageReader.new buf =
      .ok { buffer := buf, field_count := readU16 buf 0, field_table_offset := 2 } := by
  unfold MessageReader.new
  rw [if_neg (by omega), if_neg (by omega)]

/-! ## C1: scalar round trip -/

/-- C1: for every closed-set scalar type `T`, every wellformed value `v`
of `T` (identified with its bit pattern, so float NaN payloads are
compared bit-for-bit), and every field index `k < 65535`: building a
fresh message with `set_scalar(k, v)` succeeds, `finish()` produces a
buffer accepted by `MessageReader::new`, and `get_scalar::<T>(k)` on
that reader returns exactly `v`. -/
theorem c1_scalar_roundtrip (t : RustScalar) (v k : Nat)
    (hk : k < 65535) (hv : t.wf v) :
    (MessageBuilder.new.setScalar k (.scalar t v)).1 = .ok () ∧
    ∃ r, MessageReader.new (MessageBuilder.new.setScalar k (.scalar t v)).2.finish =
        .ok r ∧ r.getScalar t k = .ok v := by
  rw [setScalar_new t v k hk]
  refine ⟨rfl, ?_⟩
  dsimp only
  set b' : MessageBuilder :=
    { buffer := [0, 0] ++ encodeScalar t v,
      field_entries := List.replicate k { type_id := 0, offset := 0 } ++
        [{ type_id := t.typeId, offset := 2 }],
      field_count := k + 1,
      payload_offset := 2 + t.size } with hb'
  have henc : (encodeScalar t v).length = t.size := leBytes_length v t.size
  have hfcval : b'.field_count = k + 1 := by rw [hb']
  have hpoval : b'.payload_offset = 2 + t.size := by rw [hb']
  have hbufval : b'.buffer = [0, 0] ++ encodeScalar t v := by rw [hb']
  have hentval : b'.field_entries =
      List.replicate k { type_id := 0, offset := 0 } ++
        [{ type_id := t.typeId, offset := 2 }] := by rw [hb']
  have hfc : b'.field_entries.length = b'.field_count := by
    rw [hentval, hfcval]
    simp
  have hpo : 2 ≤ b'.payload_offset := by rw [hpoval]; omega
  have hbuf : b'.buffer.length = b'.payload_offset := by
    rw [hbufval, hpoval]
    simp only [List.length_append, List.length_cons, List.length_nil]
    omega
  have hlenB : b'.finish.length = 2 + t.size + (k + 1) * 5 := by
    rw [finish_length b' hpo, hpoval, hfcval]
  have hpow2 : (256 : Nat) ^ 2 = 65536 := by norm_num
  have hhead : readU16 b'.finish 0 = k + 1 := by
    have hh : ∀ i, i < 2 →
        b'.finish.getD (0 + i) 0 = (leBytes (k + 1) 2).getD i 0 := by
      intro i hi
      rw [Nat.zero_add]
      rw [finish_getD_header b' i hi hpo hbuf, hfcval]
    have hr := readLE_leBytes (k + 1) 2 b'.finish 0 hh
    rw [readU16, hr]
    exact Nat.mod_eq_of_lt (by omega)
  have hentry : b'.field_entries.getD k { type_id := 0, offset := 0 } =
      { type_id := t.typeId, offset := 2 } := by
    have h1 := getD_append_singleton
      (List.replicate k ({ type_id := 0, offset := 0 } : FieldEntry))
      ({ type_id := t.typeId, offset := 2 } : FieldEntry)
      ({ type_id := 0, offset := 0 } : FieldEntry)
    rw [List.length_replicate] at h1
    rw [hentval]
    exact h1
  have hjlt : k < b'.field_entries.length := by
    rw [hentval]
    simp
  have htype : b'.finish.getD (2 + 5 * k) 0 = t.typeId := by
    rw [finish_getD_type b' k hjlt hfc hpo hbuf, hentry]
  have hpow32 : (2 : Nat) ^ 32 = 4294967296 := by norm_num
  have hofflt : 2 + (k + 1) * 5 < 2 ^ 32 := by omega
  have hoffval : readLE b'.finish (2 + 5 * k + 1) 4 = 2 + (k + 1) * 5 := by
    have hh : ∀ i, i < 4 →
        b'.finish.getD ((2 + 5 * k + 1) + i) 0 =
          (leBytes (2 + (k + 1) * 5) 4).getD i 0 := by
      intro i hi
      have h1 := finish_getD_offset b' k i hjlt hi hfc hpo hbuf
      rw [hentry, hfcval] at h1
      dsimp only at h1
      have h2 : (2 + (k + 1) * 5) % 2 ^ 32 = 2 + (k + 1) * 5 :=
        Nat.mod_eq_of_lt (by omega)
      rw [h2] at h1
      exact h1
    have hr := readLE_leBytes (2 + (k + 1) * 5) 4 b'.finish (2 + 5 * k + 1) hh
    rw [hr]
    have hpow256 : (256 : Nat) ^ 4 = 4294967296 := by norm_num
    exact Nat.mod_eq_of_lt (by omega)
  have hpay : ∀ i, i < t.size →
      b'.finish.getD (2 + (k + 1) * 5 + i) 0 = (encodeScalar t v).getD i 0 := by
    intro i hi
    have h1 := finish_getD_payload b' i (by rw [hpoval]; omega) hfc hpo hbuf
    rw [hfcval] at h1
    rw [show 2 + (k + 1) * 5 + i = 2 + 5 * (k + 1) + i by ring, h1]
    rw [hbufval]
    rw [show (2 : Nat) + i = (i + 1) + 1 by omega]
    show ((0 : Nat) :: 0 :: encodeScalar t v).getD (i + 1 + 1) 0 = _
    rw [List.getD_cons_succ, List.getD_cons_succ]
  have h2le : 2 ≤ b'.finish.length := by omega
  have hNle : 2 + readU16 b'.finish 0 * 5 ≤ b'.finish.length := by
    rw [hhead]; omega
  have hnew : MessageReader.new b'.finish =
      .ok { buffer := b'.finish, field_count := k + 1, field_table_offset := 2 } := by
    have h := MessageReader.new_ok b'.finish h2le hNle
    rw [hhead] at h
    exact h
  refine ⟨{ buffer := b'.finish, field_count := k + 1, field_table_offset := 2 },
    hnew, ?_⟩
  have heolt : 2 + k * 5 < b'.finish.length := by omega
  have hget : b'.finish.get? (2 + k * 5) = some t.typeId := by
    rw [get?_eq_some_getD _ _ heolt]
    rw [show 2 + k * 5 = 2 + 5 * k by ring, htype]
  have hfe : MessageReader.fieldEntry
      { buffer := b'.finish, field_count := k + 1, field_table_offset := 2 } k =
      .ok (some (primOf t, 2 + (k + 1) * 5)) := by
    unfold MessageReader.fieldEntry
    dsimp only
    rw [if_neg (show ¬k ≥ k + 1 by omega)]
    rw [hget]
    dsimp only
    rw [fromU8_typeId]
    dsimp only
    rw [if_neg (primOf_ne_unset t)]
    unfold readU32?
    rw [if_pos (show 2 + k * 5 + 1 + 4 ≤ b'.finish.length by omega)]
    dsimp only
    rw [show 2 + k * 5 + 1 = 2 + 5 * k + 1 by ring, hoffval]
  have hzp : zpRead t b'.finish (2 + (k + 1) * 5) = .ok v := by
    unfold zpRead
    rw [if_neg (by omega)]
    have hd := decode_encode t v b'.finish (2 + (k + 1) * 5) hv hpay
    rw [hd]
  unfold MessageReader.getScalar MessageReader.tryGetScalar
  rw [hfe]
  dsimp only
  rw [hzp]
theorem c1_scalar_roundtrip_witness :
    (0 : Nat) < 65535 ∧ RustScalar.u32.wf 42 ∧
    ((MessageBuilder.new.setScalar 0 (.scalar .u32 42)).1 = .ok () ∧
     ∃ r, MessageReader.new
         (MessageBuilder.new.setScalar 0 (.scalar .u32 42)).2.finish = .ok r ∧
       r.getScalar .u32 0 = .ok 42) :=
  ⟨by decide, by show (42 : Nat) < 256 ^ 4; norm_num,
    c1_scalar_roundtrip .u32 42 0 (by decide)
      (by show (42 : Nat) < 256 ^ 4; norm_num)⟩

/-! ## C10: a failed `set_scalar` still mutates the builder -/

theorem getD_append_right' {α : Type} (l l' : List α) (p : Nat)
    (hp : l.length ≤ p) (d : α) :
    (l ++ l').getD p d = l'.getD (p - l.length) d := by
  rw [List.getD_eq_getElem?_getD, List.getD_eq_getElem?_getD,
    List.getElem?_append_right hp]

theorem getD_replicate' {α : Type} (n i : Nat) (hi : i < n) (x d : α) :
    (List.replicate n x).getD i d = x := by
  rw [List.getD_eq_getElem _ _ (by simpa using hi)]
  simp

/-- `set_scalar` with a value type outside the closed scalar set: the call
reaches `get_type_id` only after `ensure_field_index` has already grown the
entry table, so the error leaves the builder mutated. -/
theorem setScalar_nonScalar (b : MessageBuilder) (k : Nat)
    (hk : k < 65535) (hfcle : b.field_count ≤ k)
    (hlen : b.field_entries.length = b.field_count) :
    b.setScalar k .nonScalar =
      (.error .invalidFieldType,
       { b with field_count := k + 1,
                field_entries := b.field_entries ++
                  List.replicate (k + 1 - b.field_count)
                    { type_id := 0, offset := 0 } }) := by
  have hens : b.ensureFieldIndex k =
      (.ok (), { b with field_count := k + 1,
                        field_entries := b.field_entries ++
                          List.replicate (k + 1 - b.field_count)
                            { type_id := 0, offset := 0 } }) := by
    unfold MessageBuilder.ensureFieldIndex
    rw [if_neg (by omega), if_pos (by omega)]
    unfold resizeEntries
    rw [if_neg (by omega), hlen]
  unfold MessageBuilder.setScalar
  rw [hens]
  rfl

/-- C10: on any builder whose field count is at most `k < 65535`, calling
`set_scalar(k, v)` with a value type outside the closed scalar set returns
`InvalidFieldType` yet still mutates the builder: the field count becomes
`k+1`, the newly created entries carry `type_id` 0 (the `u8` tag) and
offset 0, and a subsequent `finish()` emits every such slot as a present
`u8` field (`type_id` byte 0, `has_field = Ok(true)`) rather than `Unset`. -/
theorem c10_failed_set_not_atomic (b : MessageBuilder) (k : Nat)
    (hk : k < 65535) (hfcle : b.field_count ≤ k)
    (hlen : b.field_entries.length = b.field_count)
    (hpo : 2 ≤ b.payload_offset)
    (hbuf : b.buffer.length = b.payload_offset) :
    (b.setScalar k .nonScalar).1 = .error .invalidFieldType ∧
    (b.setScalar k .nonScalar).2.field_count = k + 1 ∧
    (b.setScalar k .nonScalar).2.field_entries =
      b.field_entries ++ List.replicate (k + 1 - b.field_count)
        { type_id := 0, offset := 0 } ∧
    (b.setScalar k .nonScalar).2.buffer = b.buffer ∧
    ∀ j, b.field_count ≤ j → j ≤ k →
      ((b.setScalar k .nonScalar).2.finish).getD (2 + 5 * j) 0 = 0 ∧
      ∃ r, MessageReader.new ((b.setScalar k .nonScalar).2.finish) = .ok r ∧
        r.hasField j = .ok true := by
  rw [setScalar_nonScalar b k hk hfcle hlen]
  refine ⟨rfl, rfl, rfl, rfl, ?_⟩
  intro j hj1 hj2
  dsimp only
  set b1 : MessageBuilder :=
    { b with field_count := k + 1,
             field_entries := b.field_entries ++
               List.replicate (k + 1 - b.field_count)
                 { type_id := 0, offset := 0 } } with hb1
  have hfcval : b1.field_count = k + 1 := by rw [hb1]
  have hentval : b1.field_entries = b.field_entries ++
      List.replicate (k + 1 - b.field_count)
        { type_id := 0, offset := 0 } := by rw [hb1]
  have hpoval : b1.payload_offset = b.payload_offset := by rw [hb1]
  have hbufval : b1.buffer = b.buffer := by rw [hb1]
  have hfc1 : b1.field_entries.length = b1.field_count := by
    rw [hentval, hfcval, List.length_append, List.length_replicate]
    omega
  have hpo1 : 2 ≤ b1.payload_offset := by rw [hpoval]; exact hpo
  have hbuf1 : b1.buffer.length = b1.payload_offset := by
    rw [hbufval, hpoval]; exact hbuf
  have hlenB : b1.finish.length = b.payload_offset + (k + 1) * 5 := by
    rw [finish_length b1 hpo1, hpoval, hfcval]
  have hpow2 : (256 : Nat) ^ 2 = 65536 := by norm_num
  have hhead : readU16 b1.finish 0 = k + 1 := by
    have hh : ∀ i, i < 2 →
        b1.finish.getD (0 + i) 0 = (leBytes (k + 1) 2).getD i 0 := by
      intro i hi
      rw [Nat.zero_add]
      rw [finish_getD_header b1 i hi hpo1 hbuf1, hfcval]
    have hr := readLE_leBytes (k + 1) 2 b1.finish 0 hh
    rw [readU16, hr]
    exact Nat.mod_eq_of_lt (by omega)
  have hentry : b1.field_entries.getD j { type_id := 0, offset := 0 } =
      { type_id := 0, offset := 0 } := by
    rw [hentval, getD_append_right' _ _ _ (by omega) _]
    exact getD_replicate' _ _ (by omega) _ _
  have htype : b1.finish.getD (2 + 5 * j) 0 = 0 := by
    rw [finish_getD_type b1 j (by omega) hfc1 hpo1 hbuf1, hentry]
  refine ⟨htype, ?_⟩
  have h2le : 2 ≤ b1.finish.length := by omega
  have hNle : 2 + readU16 b1.finish 0 * 5 ≤ b1.finish.length := by
    rw [hhead]; omega
  have hnew : MessageReader.new b1.finish =
      .ok { buffer := b1.finish, field_count := k + 1, field_table_offset := 2 } := by
    have h := MessageReader.new_ok b1.finish h2le hNle
    rw [hhead] at h
    exact h
  refine ⟨{ buffer := b1.finish, field_count := k + 1, field_table_offset := 2 },
    hnew, ?_⟩
  unfold MessageReader.hasField
  dsimp only
  rw [if_neg (show ¬j ≥ k + 1 by omega)]
  have hjlt : 2 + j * 5 < b1.finish.length := by omega
  have hget : b1.finish.get? (2 + j * 5) = some 0 := by
    rw [get?_eq_some_getD _ _ hjlt]
    rw [show 2 + j * 5 = 2 + 5 * j by ring, htype]
  rw [hget]
  rfl

/-- Witness for C10 on a fresh builder with `k = 1`: the failed set reports
`InvalidFieldType`, bumps the field count to 2, and the never-set slot 0 is
emitted as a present field. -/
theorem c10_failed_set_not_atomic_witness :
    MessageBuilder.new.field_count ≤ 1 ∧ (1 : Nat) < 65535 ∧
    ((MessageBuilder.new.setScalar 1 .nonScalar).1 = .error .invalidFieldType ∧
     (MessageBuilder.new.setScalar 1 .nonScalar).2.field_count = 2 ∧
     ((MessageBuilder.new.setScalar 1 .nonScalar).2.finish).getD (2 + 5 * 0) 0 = 0 ∧
     ∃ r, MessageReader.new (MessageBuilder.new.setScalar 1 .nonScalar).2.finish =
         .ok r ∧ r.hasField 0 = .ok true) := by
  have h := c10_failed_set_not_atomic MessageBuilder.new 1 (by decide) (by decide)
    rfl (by decide) rfl
  exact ⟨by decide, by decide, h.1, h.2.1,
    (h.2.2.2.2 0 (by decide) (by decide)).1,
    (h.2.2.2.2 0 (by decide) (by decide)).2⟩

/-! # Schema compiler (crates/zeroproto-compiler)

## Lexer (parser.rs, `SchemaParser::tokenize`)

The model follows the `while` loop over `chars: Vec<char>` branch by
branch.  Rust's Unicode-aware `char::is_alphanumeric`/`is_uppercase` are
modelled by their ASCII counterparts, which agree on all ASCII source
text (every input the claims evaluate is ASCII).  `f64` literal values
are kept as their raw digit strings: the source only ever re-renders
them, and no claim inspects a float's numeric value. -/

/-- `CompilerError` (compiler lib.rs); `Io`/`FileNotFound` never arise in
the core phases. -/
inductive CompilerError
  | parse (msg : String)
  | validation (msg : String)
  | codegen (msg : String)
  deriving DecidableEq, Repr

/-- `Token` (parser.rs). -/
inductive Token
  | identifier (s : String)
  | integer (v : Int)
  | float (raw : String)
  | stringLit (s : String)
  | message
  | enum
  | trueKw
  | falseKw
  | colon
  | semicolon
  | comma
  | leftBrace
  | rightBrace
  | leftBracket
  | rightBracket
  | equals
  | question
  deriving DecidableEq, Repr

/-- The identifier-start class `'a'..='z' | 'A'..='Z' | '_'`. -/
def isIdentStart (c : Char) : Bool :=
  (c.isLower || c.isUpper) || c = '_'

/-- The identifier-continue class `is_alphanumeric() || '_'`
(ASCII restriction of Rust's Unicode class). -/
def isIdentCont (c : Char) : Bool := c.isAlphanum || c = '_'

/-- Keyword recognition over a lexed identifier (parser.rs:81-87). -/
def keywordToken (s : String) : Token :=
  if s = "message" then .message
  else if s = "enum" then .enum
  else if s = "true" then .trueKw
  else if s = "false" then .falseKw
  else .identifier s

/-- `num_str.parse::<i64>()`: an optional sign then at least one digit,
value within the `i64` range. -/
def parseI64 (neg : Bool) (digits : List Char) : Option Int :=
  if digits.isEmpty then none
  else
    let n : Nat := digits.foldl (fun a c => a * 10 + (c.toNat - 48)) 0
    if neg then if n ≤ 2 ^ 63 then some (-(n : Int)) else none
    else if n ≤ 2 ^ 63 - 1 then some (n : Int) else none

/-- The string-literal scanning loop (parser.rs:153-159): stop at an
unescaped quote, an escaping backslash also consumes the next character.
Returns the scanned content and the remainder, which starts at the
closing quote (or is empty when the literal is unterminated). -/
def takeStr : List Char → List Char × List Char
  | [] => ([], [])
  | c :: rest =>
    if c = '"' then ([], c :: rest)
    else if c = '\\' then
      match rest with
      | [] => ([c], [])
      | d :: rest2 =>
        let p := takeStr rest2
        (c :: d :: p.1, p.2)
    else
      let p := takeStr rest
      (c :: p.1, p.2)

/-- The block-comment scanning loop (parser.rs:66-73): skip until the
adjacent pair `*/`, then skip both; an unterminated comment consumes the
rest of the input. -/
def skipBlock : List Char → List Char
  | [] => []
  | [_] => []
  | a :: b :: rest => if a = '*' && b = '/' then rest else skipBlock (b :: rest)

/-- The numeric-literal branch (parser.rs:90-111) after the optional sign:
take the integer digits, then on a `.` the fractional digits and build a
float token, else parse an `i64`.  `expect("valid integer")` /
`expect("valid float")` on a failed parse is a panic: the integer parse
fails when there are no digits (a lone `-`) or the value exceeds the
64-bit range; the float parse fails when both digit runs are empty. -/
def lexNumber (neg : Bool) (s : List Char) : Outcome CompilerError Token × List Char :=
  let intDigits := s.takeWhile (·.isDigit)
  let rem1 := s.dropWhile (·.isDigit)
  if rem1.head? = some '.' then
    let rem2 := rem1.tail
    let fracDigits := rem2.takeWhile (·.isDigit)
    let rem3 := rem2.dropWhile (·.isDigit)
    if intDigits.isEmpty && fracDigits.isEmpty then (.panic, rem3)
    else
      (.ok (.float (String.mk ((if neg then ['-'] else []) ++ intDigits ++
        '.' :: fracDigits))), rem3)
  else
    match parseI64 neg intDigits with
    | none => (.panic, rem1)
    | some v => (.ok (.integer v), rem1)

theorem dropWhile_length_le (p : Char → Bool) (l : List Char) :
    (l.dropWhile p).length ≤ l.length := by
  induction l with
  | nil => simp [List.dropWhile]
  | cons a l ih =>
    rw [List.dropWhile]
    by_cases h : p a
    · simp [h]; omega
    · simp [h]

theorem dropWhile_cons_pos (p : Char → Bool) (c : Char) (l : List Char)
    (h : p c = true) : (c :: l).dropWhile p = l.dropWhile p := by
  simp [List.dropWhile, h]

theorem takeStr_rest_le (s : List Char) : (takeStr s).2.length ≤ s.length := by
  induction s using takeStr.induct with
  | case1 => rw [takeStr.eq_def]
  | case2 rest2 => rw [takeStr.eq_def]; simp
  | case3 h => rw [takeStr.eq_def]; simp
  | case4 d rest2 h ih =>
    rw [takeStr.eq_def]
    simp
    omega
  | case5 d rest2 h1 h2 ih =>
    rw [takeStr.eq_def]
    simp [h1, h2]
    omega

theorem skipBlock_length_le (s : List Char) : (skipBlock s).length ≤ s.length := by
  induction s using skipBlock.induct with
  | case1 => simp [skipBlock]
  | case2 => simp [skipBlock]
  | case3 a b rest h =>
    rw [skipBlock, if_pos h]
    simp
    omega
  | case4 a b rest h ih =>
    rw [skipBlock, if_neg h]
    simp at ih ⊢
    omega

theorem lexNumber_rest_le_drop (neg : Bool) (s : List Char) :
    (lexNumber neg s).2.length ≤ (s.dropWhile (·.isDigit)).length := by
  unfold lexNumber
  by_cases hdot : (s.dropWhile (·.isDigit)).head? = some '.'
  · rw [if_pos hdot]
    have h2 : (s.dropWhile (·.isDigit)).tail.length ≤
        (s.dropWhile (·.isDigit)).length := by
      cases s.dropWhile (·.isDigit) <;> simp
    have h3 := dropWhile_length_le (·.isDigit) (s.dropWhile (·.isDigit)).tail
    by_cases hz : (s.takeWhile (·.isDigit)).isEmpty &&
        ((s.dropWhile (·.isDigit)).tail.takeWhile (·.isDigit)).isEmpty
    · rw [if_pos hz]
      dsimp only
      omega
    · rw [if_neg hz]
      dsimp only
      omega
  · rw [if_neg hdot]
    cases hp : parseI64 neg (s.takeWhile (·.isDigit)) <;> simp [hp]

theorem lexNumber_rest_le (neg : Bool) (s : List Char) :
    (lexNumber neg s).2.length ≤ s.length :=
  le_trans (lexNumber_rest_le_drop neg s) (dropWhile_length_le _ s)

theorem lexNumber_rest_cons_digit (neg : Bool) (c : Char) (s : List Char)
    (hc : c.isDigit = true) :
    (lexNumber neg (c :: s)).2.length ≤ s.length := by
  have h1 := lexNumber_rest_le_drop neg (c :: s)
  rw [dropWhile_cons_pos _ _ _ (by simpa using hc)] at h1
  exact le_trans h1 (dropWhile_length_le _ s)

theorem identStart_cont (c : Char) (h : isIdentStart c = true) :
    isIdentCont c = true := by
  unfold isIdentStart at h
  unfold isIdentCont Char.isAlphanum Char.isAlpha
  simp at h ⊢
  tauto

theorem tail_length_le (l : List Char) : l.tail.length ≤ l.length := by
  cases l <;> simp

/-- Attach a token in front of the remaining lexing outcome. -/
def consTok (t : Token) (o : Outcome CompilerError (List Token)) :
    Outcome CompilerError (List Token) :=
  match o with
  | .ok ts => .ok (t :: ts)
  | .err e => .err e
  | .panic => .panic

/-- `SchemaParser::tokenize` (parser.rs:50-173), the `while` loop over the
character vector. -/
def tokenizeGo : List Char → Outcome CompilerError (List Token)
  | [] => .ok []
  | c :: rest =>
    if c = ' ' ∨ c = '\t' ∨ c = '\n' ∨ c = '\r' then tokenizeGo rest
    else if c = '/' ∧ rest.head? = some '/' then
      tokenizeGo (rest.dropWhile (· ≠ '\n'))
    else if c = '/' ∧ rest.head? = some '*' then
      tokenizeGo (skipBlock rest.tail)
    else if hid : isIdentStart c then
      consTok (keywordToken (String.mk ((c :: rest).takeWhile isIdentCont)))
        (tokenizeGo ((c :: rest).dropWhile isIdentCont))
    else if c = '-' then
      match (lexNumber true rest).1 with
      | .panic => .panic
      | .err e => .err e
      | .ok tok => consTok tok (tokenizeGo (lexNumber true rest).2)
    else if hdig : c.isDigit then
      match (lexNumber false (c :: rest)).1 with
      | .panic => .panic
      | .err e => .err e
      | .ok tok => consTok tok (tokenizeGo (lexNumber false (c :: rest)).2)
    else if c = ':' then consTok .colon (tokenizeGo rest)
    else if c = ';' then consTok .semicolon (tokenizeGo rest)
    else if c = '{' then consTok .leftBrace (tokenizeGo rest)
    else if c = '}' then consTok .rightBrace (tokenizeGo rest)
    else if c = '[' then consTok .leftBracket (tokenizeGo rest)
    else if c = ']' then consTok .rightBracket (tokenizeGo rest)
    else if c = '=' then consTok .equals (tokenizeGo rest)
    else if c = ',' then consTok .comma (tokenizeGo rest)
    else if c = '?' then consTok .question (tokenizeGo rest)
    else if c = '"' then
      consTok (.stringLit (String.mk (takeStr rest).1))
        (tokenizeGo (takeStr rest).2.tail)
    else .err (.parse ("Unexpected character: " ++ String.mk [c]))
termination_by cs => cs.length
decreasing_by
  all_goals
    simp only [List.length_cons]
    first
      | exact Nat.lt_succ_self _
      | exact Nat.lt_succ_of_le (dropWhile_length_le _ _)
      | exact Nat.lt_succ_of_le
          (le_trans (skipBlock_length_le _) (tail_length_le _))
      | exact Nat.lt_succ_of_le (by
          rw [dropWhile_cons_pos _ _ _ (identStart_cont _ (by assumption))]
          exact dropWhile_length_le _ _)
      | exact Nat.lt_succ_of_le (lexNumber_rest_le _ _)
      | exact Nat.lt_succ_of_le (lexNumber_rest_cons_digit _ _ _ (by assumption))
      | exact Nat.lt_succ_of_le
          (le_trans (tail_length_le _) (takeStr_rest_le _))

/-- `SchemaParser::tokenize` entry: lex the whole input string. -/
def tokenize (input : String) : Outcome CompilerError (List Token) :=
  tokenizeGo input.data

/-! ## C7: the parser is *not* total (code bug)

`parse` (parser.rs:175-176) first runs `tokenize`, whose numeric branch
ends in `num_str.parse::<i64>().expect("valid integer")` (parser.rs:109):
for the input `"-"` the lexed number string is just the sign, the parse
fails, and `expect` panics.  (Further panics exist downstream: integer
literals beyond the `i64` range panic at the same `expect`, `"-."` panics
at `expect("valid float")`, and a message body missing its closing brace
panics in `parse_message_fields` via `peek()` at end of input,
parser.rs:293/346.) -/

/-- C7 evaluated at the failing input: lexing the one-character input
`"-"` panics instead of returning `Ok` or a `Parse` error, so
`parse("-")`, which calls `tokenize` first, panics as well. -/
theorem c7_tokenize_panics_on_lone_minus : tokenize "-" = .panic := by
  rw [tokenize, show "-".data = ['-'] from rfl]
  rw [tokenizeGo]
  simp [lexNumber, parseI64, isIdentStart, Char.isLower, Char.isUpper]

/-! ## AST (ast.rs)

`ast.rs` as committed declares `Field` with only `name` and `field_type`,
yet `parser.rs` constructs `Field { name, field_type, optional,
default_value }` and `ir.rs` reads those fields plus
`crate::ast::DefaultValue`.  The model includes `optional`,
`default_value` and `DefaultValue` as those use sites require; the
validator (the subject of C8) never reads them. -/

/-- `ScalarType` (ast.rs): the 13 IDL scalar keywords. -/
inductive ScalarType
  | u8 | u16 | u32 | u64 | i8 | i16 | i32 | i64
  | f32 | f64 | bool | string | bytes
  deriving DecidableEq, Repr

/-- `FieldType` (ast.rs). -/
inductive FieldType
  | scalar (s : ScalarType)
  | userDefined (name : String)
  | vector (inner : FieldType)
  deriving DecidableEq, Repr

/-- `DefaultValue` (used by parser.rs and ir.rs).  The `f64` payload is
kept as its decimal rendering (`val.to_string()`): lowering only
re-renders it and no claim inspects a float's numeric value. -/
inductive DefaultValue
  | integer (v : Int)
  | float (rendered : String)
  | bool (b : Bool)
  | string (s : String)
  deriving DecidableEq, Repr

/-- `Field` as constructed by parser.rs. -/
structure Field where
  name : String
  field_type : FieldType
  optional : Bool
  default_value : Option DefaultValue
  deriving DecidableEq, Repr

/-- `Message` (ast.rs). -/
structure Message where
  name : String
  fields : List Field
  deriving DecidableEq, Repr

/-- `EnumVariant` (ast.rs). -/
structure EnumVariant where
  name : String
  value : Option Int
  deriving DecidableEq, Repr

/-- `Enum` (ast.rs). -/
structure Enum where
  name : String
  variants : List EnumVariant
  deriving DecidableEq, Repr

/-- `SchemaItem` (ast.rs). -/
inductive SchemaItem
  | message (m : Message)
  | enum (e : Enum)
  deriving DecidableEq, Repr

/-- `Schema` (ast.rs). -/
structure Schema where
  items : List SchemaItem
  deriving DecidableEq, Repr

/-- The name of a top-level item (validator.rs:54-57). -/
def itemName : SchemaItem → String
  | .message m => m.name
  | .enum e => e.name

/-- `TypeKind` (validator.rs). -/
inductive TypeKind
  | message
  | enum
  deriving DecidableEq, Repr

/-- The kind of a top-level item (validator.rs:66-69). -/
def itemKind : SchemaItem → TypeKind
  | .message _ => .message
  | .enum _ => .enum

/-! ## Validator (validator.rs)

The `HashMap<String, TypeKind>` is modelled as an association list: the
validator only ever calls `contains_key` and `insert`, for which the two
are observationally equal.  The `current_message` field is written but
never read and is omitted. -/

/-- `HashMap::contains_key` over the association-list model. -/
def containsKey (m : List (String × TypeKind)) (n : String) : Bool :=
  m.any (fun p => p.1 = n)

/-- `SchemaValidator::collect_type_names` (validator.rs:52-75): first
pass, rejecting duplicate top-level names. -/
def collectTypeNames : List SchemaItem → List (String × TypeKind) →
    Except CompilerError (List (String × TypeKind))
  | [], m => .ok m
  | item :: rest, m =>
    if containsKey m (itemName item) then
      .error (.validation ("Duplicate type name '" ++ itemName item ++ "' found"))
    else collectTypeNames rest (m ++ [(itemName item, itemKind item)])

/-- `matches!(inner.as_ref(), FieldType::Vector(_))` (validator.rs:131). -/
def FieldType.isVector : FieldType → Bool
  | .vector _ => true
  | _ => false

/-- `SchemaValidator::validate_field_type` (validator.rs:114-140): scalars
pass, `UserDefined` must resolve, the inner type of a vector is validated
first and a directly nested vector is rejected. -/
def validateFieldType (m : List (String × TypeKind)) :
    FieldType → Except CompilerError Unit
  | .scalar _ => .ok ()
  | .userDefined name =>
    if !containsKey m name then
      .error (.validation ("Unknown type '" ++ name ++ "' used in field"))
    else .ok ()
  | .vector inner =>
    match validateFieldType m inner with
    | .error e => .error e
    | .ok _ =>
      if inner.isVector then .error (.validation "Nested vectors are not allowed")
      else .ok ()

/-- The reserved-field-name loop of `validate_message` (validator.rs:82-90). -/
def checkReservedFields (msgName : String) : List Field →
    Except CompilerError Unit
  | [] => .ok ()
  | f :: rest =>
    if ["type", "id", "data", "buffer"].contains f.name then
      .error (.validation ("Field name '" ++ f.name ++ "' is reserved in message '"
        ++ msgName ++ "'"))
    else checkReservedFields msgName rest

/-- The field-type loop of `validate_message` (validator.rs:93-95). -/
def checkFieldTypes (m : List (String × TypeKind)) : List Field →
    Except CompilerError Unit
  | [] => .ok ()
  | f :: rest =>
    match validateFieldType m f.field_type with
    | .error e => .error e
    | .ok _ => checkFieldTypes m rest

/-- The duplicate-name loops of `validate_message` / `validate_enum`
(validator.rs:98-107, 145-154): walk the names with a seen-set. -/
def checkDupNames (mkErr : String → CompilerError) (seen : List String) :
    List String → Except CompilerError Unit
  | [] => .ok ()
  | n :: rest =>
    if seen.contains n then .error (mkErr n)
    else checkDupNames mkErr (seen ++ [n]) rest

/-- The value-uniqueness loop of `validate_enum` (validator.rs:157-173):
the effective value is the explicit one when present, else the 0-based
position. -/
def checkEnumValues (enumName : String) (used : List Int) (i : Nat) :
    List EnumVariant → Except CompilerError Unit
  | [] => .ok ()
  | v :: rest =>
    let value := v.value.getD (i : Int)
    if used.contains value then
      .error (.validation ("Duplicate enum value " ++ toString value ++
        " in enum '" ++ enumName ++ "'"))
    else checkEnumValues enumName (used ++ [value]) (i + 1) rest

/-- `SchemaValidator::validate_message` (validator.rs:78-111). -/
def validateMessage (m : List (String × TypeKind)) (msg : Message) :
    Except CompilerError Unit :=
  match checkReservedFields msg.name msg.fields with
  | .error e => .error e
  | .ok _ =>
    match checkFieldTypes m msg.fields with
    | .error e => .error e
    | .ok _ =>
      checkDupNames
        (fun n => .validation ("Duplicate field name '" ++ n ++
          "' in message '" ++ msg.name ++ "'"))
        [] (msg.fields.map Field.name)

/-- `SchemaValidator::validate_enum` (validator.rs:143-185): variant-name
uniqueness, value uniqueness, then the reserved-enum-name check. -/
def validateEnum (e : Enum) : Except CompilerError Unit :=
  match checkDupNames
      (fun n => .validation ("Duplicate variant name '" ++ n ++
        "' in enum '" ++ e.name ++ "'"))
      [] (e.variants.map EnumVariant.name) with
  | .error er => .error er
  | .ok _ =>
    match checkEnumValues e.name [] 0 e.variants with
    | .error er => .error er
    | .ok _ =>
      if ["Result", "Option", "Status"].contains e.name then
        .error (.validation ("Enum name '" ++ e.name ++ "' is reserved"))
      else .ok ()

/-- The second pass of `SchemaValidator::validate` (validator.rs:41-46). -/
def validateItems (m : List (String × TypeKind)) :
    List SchemaItem → Except CompilerError Unit
  | [] => .ok ()
  | .message msg :: rest =>
    match validateMessage m msg with
    | .error e => .error e
    | .ok _ => validateItems m rest
  | .enum e :: rest =>
    match validateEnum e with
    | .error er => .error er
    | .ok _ => validateItems m rest

/-- `validate` (validator.rs:8-11, 36-49): collect the name→kind map, then
validate every item. -/
def validate (s : Schema) : Except CompilerError Unit :=
  match collectTypeNames s.items [] with
  | .error e => .error e
  | .ok m => validateItems m s.items

/-! ## C8: validator soundness -/

/-- The `UserDefined` names occurring in a field type. -/
def userNames : FieldType → List String
  | .scalar _ => []
  | .userDefined n => [n]
  | .vector inner => userNames inner

/-- The effective enum-variant values from position `i` on: the explicit
value when present, else the position. -/
def effFrom (i : Nat) : List EnumVariant → List Int
  | [] => []
  | v :: rest => v.value.getD (i : Int) :: effFrom (i + 1) rest

/-- The top-level names of a schema, in declaration order. -/
def topNames (s : Schema) : List String := s.items.map itemName

theorem containsKey_iff (m : List (String × TypeKind)) (n : String) :
    containsKey m n = true ↔ n ∈ m.map Prod.fst := by
  simp [containsKey, List.any_eq_true, List.mem_map]

theorem collect_keys (items : List SchemaItem) (m m' : List (String × TypeKind))
    (h : collectTypeNames items m = .ok m') :
    m'.map Prod.fst = m.map Prod.fst ++ items.map itemName := by
  induction items generalizing m with
  | nil =>
    rw [collectTypeNames] at h
    cases h
    simp
  | cons item rest ih =>
    rw [collectTypeNames] at h
    by_cases hc : containsKey m (itemName item)
    · rw [if_pos hc] at h
      cases h
    · rw [if_neg hc] at h
      have := ih (m ++ [(itemName item, itemKind item)]) h
      simpa [List.append_assoc] using this

theorem collect_nodup (items : List SchemaItem) (m m' : List (String × TypeKind))
    (h : collectTypeNames items m = .ok m')
    (hm : (m.map Prod.fst).Nodup) : (m'.map Prod.fst).Nodup := by
  induction items generalizing m with
  | nil =>
    rw [collectTypeNames] at h
    cases h
    exact hm
  | cons item rest ih =>
    rw [collectTypeNames] at h
    by_cases hc : containsKey m (itemName item)
    · rw [if_pos hc] at h
      cases h
    · rw [if_neg hc] at h
      apply ih (m ++ [(itemName item, itemKind item)]) h
      rw [List.map_append, List.nodup_append]
      refine ⟨hm, by simp, ?_⟩
      intro a ha hb
      simp at hb
      subst hb
      exact hc ((containsKey_iff m (itemName item)).mpr ha)

theorem validateFieldType_sound (m : List (String × TypeKind))
    (ft : FieldType) (h : validateFieldType m ft = .ok ()) :
    ∀ n ∈ userNames ft, containsKey m n = true := by
  induction ft with
  | scalar s => intro n hn; simp [userNames] at hn
  | userDefined name =>
    intro n hn
    simp [userNames] at hn
    subst hn
    by_cases hc : containsKey m n
    · exact hc
    · exfalso
      have hfalse : containsKey m n = false := by
        revert hc; cases containsKey m n <;> simp
      rw [validateFieldType.eq_def] at h
      dsimp only at h
      rw [hfalse] at h
      simp at h
  | vector inner ih =>
    intro n hn
    simp only [userNames] at hn
    rw [validateFieldType.eq_def] at h
    dsimp only at h
    cases hv : validateFieldType m inner with
    | error e =>
      rw [hv] at h
      simp at h
    | ok u =>
      cases u
      exact ih hv n hn

theorem checkFieldTypes_sound (m : List (String × TypeKind))
    (fields : List Field) (h : checkFieldTypes m fields = .ok ()) :
    ∀ f ∈ fields, validateFieldType m f.field_type = .ok () := by
  induction fields with
  | nil => intro f hf; cases hf
  | cons g rest ih =>
    intro f hf
    rw [checkFieldTypes] at h
    cases hv : validateFieldType m g.field_type with
    | error e => rw [hv] at h; cases h
    | ok u =>
      rw [hv] at h
      rcases List.mem_cons.mp hf with hf | hf
      · subst hf; cases u; exact hv
      · exact ih h f hf

theorem checkDupNames_sound (mkErr : String → CompilerError)
    (xs seen : List String) (h : checkDupNames mkErr seen xs = .ok ())
    (hs : seen.Nodup) : (seen ++ xs).Nodup := by
  induction xs generalizing seen with
  | nil => simpa using hs
  | cons n rest ih =>
    rw [checkDupNames] at h
    by_cases hc : seen.contains n
    · rw [if_pos hc] at h
      cases h
    · rw [if_neg hc] at h
      have hnotin : n ∉ seen := by
        intro hmem
        exact hc (by simpa using hmem)
      have := ih (seen ++ [n]) h
        (by rw [List.nodup_append]
            refine ⟨hs, by simp, ?_⟩
            intro a ha hb
            simp at hb
            subst hb
            exact hnotin ha)
      simpa [List.append_assoc] using this

theorem checkEnumValues_sound (en : String) (vs : List EnumVariant)
    (used : List Int) (i : Nat) (h : checkEnumValues en used i vs = .ok ())
    (hs : used.Nodup) : (used ++ effFrom i vs).Nodup := by
  induction vs generalizing used i with
  | nil => simpa [effFrom] using hs
  | cons v rest ih =>
    rw [checkEnumValues] at h
    by_cases hc : used.contains (v.value.getD (i : Int))
    · rw [if_pos hc] at h
      cases h
    · rw [if_neg hc] at h
      have hnotin : v.value.getD (i : Int) ∉ used := by
        intro hmem
        exact hc (by simpa using hmem)
      have := ih (used ++ [v.value.getD (i : Int)]) (i + 1) h
        (by rw [List.nodup_append]
            refine ⟨hs, by simp, ?_⟩
            intro a ha hb
            simp at hb
            subst hb
            exact hnotin ha)
      simpa [effFrom, List.append_assoc] using this

theorem validateItems_sound (m : List (String × TypeKind))
    (items : List SchemaItem) (h : validateItems m items = .ok ()) :
    ∀ it ∈ items,
      (∀ msg, it = .message msg → validateMessage m msg = .ok ()) ∧
      (∀ e, it = .enum e → validateEnum e = .ok ()) := by
  induction items with
  | nil => intro it hit; cases hit
  | cons item rest ih =>
    intro it hit
    have hsplit : (match item with
        | SchemaItem.message msg => validateMessage m msg
        | SchemaItem.enum e => validateEnum e) = .ok () ∧
        validateItems m rest = .ok () := by
      cases item with
      | message msg =>
        rw [validateItems] at h
        cases hv : validateMessage m msg with
        | error e => rw [hv] at h; cases h
        | ok u =>
          cases u
          exact ⟨hv, by rw [hv] at h; exact h⟩
      | enum e =>
        rw [validateItems] at h
        cases hv : validateEnum e with
        | error er => rw [hv] at h; cases h
        | ok u =>
          cases u
          exact ⟨hv, by rw [hv] at h; exact h⟩
    rcases List.mem_cons.mp hit with heq | hmem
    · subst heq
      cases it with
      | message msg =>
        refine ⟨?_, ?_⟩
        · intro msg2 he
          injection he with he
          subst he
          exact hsplit.1
        · intro e he
          cases he
      | enum e =>
        refine ⟨?_, ?_⟩
        · intro msg2 he
          cases he
        · intro e2 he
          injection he with he
          subst he
          exact hsplit.1
    · exact ih hsplit.2 it hmem

theorem validateMessage_sound (m : List (String × TypeKind)) (msg : Message)
    (h : validateMessage m msg = .ok ()) :
    (msg.fields.map Field.name).Nodup ∧
    ∀ f ∈ msg.fields, validateFieldType m f.field_type = .ok () := by
  unfold validateMessage at h
  cases h1 : checkReservedFields msg.name msg.fields with
  | error e => rw [h1] at h; cases h
  | ok u =>
    rw [h1] at h
    cases h2 : checkFieldTypes m msg.fields with
    | error e => rw [h2] at h; cases h
    | ok u2 =>
      rw [h2] at h
      refine ⟨?_, ?_⟩
      · have := checkDupNames_sound _ _ [] h (by simp)
        simpa using this
      · cases u2
        exact checkFieldTypes_sound m msg.fields h2

theorem validateEnum_sound (e : Enum) (h : validateEnum e = .ok ()) :
    (e.variants.map EnumVariant.name).Nodup ∧ (effFrom 0 e.variants).Nodup := by
  unfold validateEnum at h
  cases h1 : checkDupNames
      (fun n => .validation ("Duplicate variant name '" ++ n ++
        "' in enum '" ++ e.name ++ "'"))
      [] (e.variants.map EnumVariant.name) with
  | error er => rw [h1] at h; cases h
  | ok u =>
    rw [h1] at h
    cases h2 : checkEnumValues e.name [] 0 e.variants with
    | error er => rw [h2] at h; cases h
    | ok u2 =>
      refine ⟨?_, ?_⟩
      · cases u
        have := checkDupNames_sound _ _ [] h1 (by simp)
        simpa using this
      · cases u2
        have := checkEnumValues_sound e.name e.variants [] 0 h2 (by simp)
        simpa using this

/-- C8: every schema that `validate` accepts has pairwise-distinct
top-level names, pairwise-distinct field names within each message,
pairwise-distinct variant names and pairwise-distinct effective variant
values (explicit value, else 0-based position) within each enum, and
every `UserDefined(name)` occurring in any field type names a declared
top-level item. -/
theorem c8_validator_soundness (s : Schema) (h : validate s = .ok ()) :
    (topNames s).Nodup ∧
    (∀ msg, SchemaItem.message msg ∈ s.items →
      (msg.fields.map Field.name).Nodup ∧
      ∀ f ∈ msg.fields, ∀ n ∈ userNames f.field_type, n ∈ topNames s) ∧
    (∀ e, SchemaItem.enum e ∈ s.items →
      (e.variants.map EnumVariant.name).Nodup ∧ (effFrom 0 e.variants).Nodup) := by
  unfold validate at h
  cases hc : collectTypeNames s.items [] with
  | error e => rw [hc] at h; cases h
  | ok m =>
    rw [hc] at h
    have hkeys : m.map Prod.fst = topNames s := by
      have := collect_keys s.items [] m hc
      simpa [topNames] using this
    have hitems := validateItems_sound m s.items h
    refine ⟨?_, ?_, ?_⟩
    · have := collect_nodup s.items [] m hc (by simp)
      rwa [hkeys] at this
    · intro msg hmsg
      have hm := ((hitems _ hmsg).1 msg rfl)
      have hsound := validateMessage_sound m msg hm
      refine ⟨hsound.1, ?_⟩
      intro f hf n hn
      have := validateFieldType_sound m f.field_type (hsound.2 f hf) n hn
      rw [← hkeys]
      exact (containsKey_iff m n).mp this
    · intro e he
      exact validateEnum_sound e ((hitems _ he).2 e rfl)

/-- A concrete two-item schema (a message referencing an enum) accepted
by the validator. -/
def exampleSchema : Schema :=
  ⟨[.message ⟨"User", [⟨"user_id", .scalar .u64, false, none⟩,
      ⟨"role", .userDefined "Role", false, none⟩]⟩,
    .enum ⟨"Role", [⟨"Admin", some 5⟩, ⟨"Guest", none⟩]⟩]⟩

/-- Witness for C8 at `exampleSchema`. -/
theorem c8_validator_soundness_witness :
    validate exampleSchema = .ok () ∧
    ((topNames exampleSchema).Nodup ∧
     (∀ msg, SchemaItem.message msg ∈ exampleSchema.items →
       (msg.fields.map Field.name).Nodup ∧
       ∀ f ∈ msg.fields, ∀ n ∈ userNames f.field_type, n ∈ topNames exampleSchema) ∧
     (∀ e, SchemaItem.enum e ∈ exampleSchema.items →
       (e.variants.map EnumVariant.name).Nodup ∧ (effFrom 0 e.variants).Nodup)) :=
  ⟨by rfl, c8_validator_soundness exampleSchema (by rfl)⟩

/-! ## IR lowering (ir.rs)

Rust's Unicode `char::is_uppercase` is modelled by the ASCII
`Char.isUpper` (they agree on ASCII identifiers); `to_ascii_uppercase` /
`to_ascii_lowercase` are `Char.toUpper` / `Char.toLower`. -/

/-- The character loop of `to_pascal_case` (ir.rs:210-226), carrying the
`capitalize_next` flag. -/
def pascalGo : Bool → List Char → List Char
  | _, [] => []
  | capNext, ch :: rest =>
    if ch = '_' then pascalGo true rest
    else if capNext then ch.toUpper :: pascalGo false rest
    else ch :: pascalGo capNext rest

/-- `to_pascal_case` (ir.rs). -/
def toPascalCase (input : String) : String := String.mk (pascalGo true input.data)

/-- The character loop of `to_snake_case` (ir.rs:229-245), carrying the
position and the `prev_char_was_upper` flag. -/
def snakeGo : Nat → Bool → List Char → List Char
  | _, _, [] => []
  | i, prevUpper, ch :: rest =>
    if ch.isUpper then
      (if 0 < i ∧ ¬prevUpper then ['_', ch.toLower] else [ch.toLower]) ++
        snakeGo (i + 1) true rest
    else ch :: snakeGo (i + 1) false rest

/-- `to_snake_case` (ir.rs), including the trailing-underscore pop. -/
def toSnakeCase (input : String) : String :=
  let r := snakeGo 0 false input.data
  String.mk (if r.getLast? = some '_' then r.dropLast else r)

/-- `ScalarType::rust_type` (ast.rs:212-228). -/
def ScalarType.rustType : ScalarType → String
  | .u8 => "u8" | .u16 => "u16" | .u32 => "u32" | .u64 => "u64"
  | .i8 => "i8" | .i16 => "i16" | .i32 => "i32" | .i64 => "i64"
  | .f32 => "f32" | .f64 => "f64" | .bool => "bool"
  | .string => "&'a str" | .bytes => "&'a [u8]"

/-- `ScalarType::primitive_type_id` (ast.rs:231-248, via the compiler's
`PrimitiveType` discriminants in compiler primitives.rs). -/
def ScalarType.primitiveTypeId : ScalarType → Nat
  | .u8 => 0 | .u16 => 1 | .u32 => 2 | .u64 => 3
  | .i8 => 4 | .i16 => 5 | .i32 => 6 | .i64 => 7
  | .f32 => 8 | .f64 => 9 | .bool => 10 | .string => 11 | .bytes => 12

/-- `IrEnumVariant` (ir.rs). -/
structure IrEnumVariant where
  name : String
  rust_name : String
  value : Int
  deriving DecidableEq, Repr

/-- `IrEnum` (ir.rs). -/
structure IrEnum where
  name : String
  rust_name : String
  variants : List IrEnumVariant
  deriving DecidableEq, Repr

/-- `IrFieldType` (ir.rs). -/
inductive IrFieldType
  | scalar (scalar_type : ScalarType) (rust_type : String) (primitive_id : Nat)
  | userDefined (type_name : String) (rust_type : String) (is_message : Bool)
  | vector (element_type : IrFieldType) (rust_type : String) (reader_type : String)
  deriving DecidableEq, Repr

/-- `IrField` (ir.rs).  `index` is `i as u16`. -/
structure IrField where
  name : String
  rust_name : String
  field_type : IrFieldType
  index : Nat
  offset_constant : String
  optional : Bool
  default_value : Option String
  deriving DecidableEq, Repr

/-- `IrMessage` (ir.rs). -/
structure IrMessage where
  name : String
  rust_name : String
  fields : List IrField
  reader_name : String
  builder_name : String
  deriving DecidableEq, Repr

/-- `IrSchema` (ir.rs). -/
structure IrSchema where
  messages : List IrMessage
  enums : List IrEnum
  deriving DecidableEq, Repr

/-- The variant loop of `lower_enum` (ir.rs:96-105): explicit value when
present, else the 0-based position (`unwrap_or(i as i64)`). -/
def lowerVariants (i : Nat) : List EnumVariant → List IrEnumVariant
  | [] => []
  | v :: rest =>
    ⟨v.name, toPascalCase v.name, v.value.getD (i : Int)⟩ :: lowerVariants (i + 1) rest

/-- `lower_enum` (ir.rs:94-112). -/
def lowerEnum (e : Enum) : IrEnum :=
  ⟨e.name, toPascalCase e.name, lowerVariants 0 e.variants⟩

/-- `lower_default_value` (ir.rs:151-164): integers render in decimal,
floats gain a `.0` when their rendering has no dot, booleans render as
`true`/`false`, strings get wrapped in quotes. -/
def lowerDefaultValue (dv : DefaultValue) : String :=
  match dv with
  | .integer v => toString v
  | .float s => if s.contains '.' then s else s ++ ".0"
  | .bool b => if b then "true" else "false"
  | .string s => "\"" ++ s ++ "\""

/-- `lower_field_type` (ir.rs:167-207).  A nested vector reaches the
`panic!("Nested vectors should have been caught by validator")` arm. -/
def lowerFieldType (enums : List IrEnum) :
    FieldType → Outcome CompilerError IrFieldType
  | .scalar st => .ok (.scalar st st.rustType st.primitiveTypeId)
  | .userDefined tn =>
    .ok (.userDefined tn (toPascalCase tn) (!(enums.any (fun en => en.name = tn))))
  | .vector inner =>
    match lowerFieldType enums inner with
    | .panic => .panic
    | .err e => .err e
    | .ok et =>
      match et with
      | .scalar _ rt _ =>
        .ok (.vector et ("VectorReader<'a, " ++ rt ++ ">") "VectorReader<'a, _>")
      | .userDefined _ rt isMsg =>
        .ok (.vector et
          (if isMsg then "VectorReader<'a, " ++ rt ++ "Reader<'a>>"
           else "VectorReader<'a, " ++ rt ++ ">")
          "VectorReader<'a, _>")
      | .vector _ _ _ => .panic

/-- The field loop of `lower_message` (ir.rs:120-139), carrying the
positional index. -/
def lowerFields (enums : List IrEnum) (i : Nat) :
    List Field → Outcome CompilerError (List IrField)
  | [] => .ok []
  | f :: rest =>
    match lowerFieldType enums f.field_type with
    | .panic => .panic
    | .err e => .err e
    | .ok ft =>
      match lowerFields enums (i + 1) rest with
      | .panic => .panic
      | .err e => .err e
      | .ok irs =>
        .ok (⟨f.name, toSnakeCase f.name, ft, i % 2 ^ 16,
          "FIELD_" ++ toString i ++ "_OFFSET", f.optional,
          f.default_value.map lowerDefaultValue⟩ :: irs)

/-- `lower_message` (ir.rs:115-148). -/
def lowerMessage (enums : List IrEnum) (msg : Message) :
    Outcome CompilerError IrMessage :=
  match lowerFields enums 0 msg.fields with
  | .panic => .panic
  | .err e => .err e
  | .ok fs =>
    .ok ⟨msg.name, toPascalCase msg.name, fs,
      toPascalCase msg.name ++ "Reader", toPascalCase msg.name ++ "Builder"⟩

/-- `Schema::enums` (ast.rs:92-97). -/
def Schema.enumsOf (s : Schema) : List Enum :=
  s.items.filterMap fun it =>
    match it with
    | .enum e => some e
    | _ => none

/-- `Schema::messages` (ast.rs:84-89). -/
def Schema.messagesOf (s : Schema) : List Message :=
  s.items.filterMap fun it =>
    match it with
    | .message m => some m
    | _ => none

/-- The message loop of `lower_ast` (ir.rs:86-88). -/
def lowerMessages (enums : List IrEnum) :
    List Message → Outcome CompilerError (List IrMessage)
  | [] => .ok []
  | m :: rest =>
    match lowerMessage enums m with
    | .panic => .panic
    | .err e => .err e
    | .ok im =>
      match lowerMessages enums rest with
      | .panic => .panic
      | .err e => .err e
      | .ok ims => .ok (im :: ims)

/-- `lower_ast` (ir.rs:74-91): enums first (they resolve user-defined
kinds), then messages. -/
def lowerAst (s : Schema) : Outcome CompilerError IrSchema :=
  let irEnums := s.enumsOf.map lowerEnum
  match lowerMessages irEnums s.messagesOf with
  | .panic => .panic
  | .err e => .err e
  | .ok ms => .ok ⟨ms, irEnums⟩

/-! ## C9: lowering is total only on schemas without nested vectors -/

/-- No `Vector(Vector(_))` occurs in the field type. -/
def FieldType.noNestedVec : FieldType → Bool
  | .scalar _ => true
  | .userDefined _ => true
  | .vector inner => ! inner.isVector && inner.noNestedVec

/-- No `Vector(Vector(_))` occurs anywhere in the schema. -/
def Schema.noNestedVectors (s : Schema) : Bool :=
  s.items.all fun it =>
    match it with
    | .message m => m.fields.all fun f => f.field_type.noNestedVec
    | .enum _ => true

/-- A schema containing a `Vector(Vector(u8))` field. -/
def nestedVecSchema : Schema :=
  ⟨[.message ⟨"M", [⟨"bad", .vector (.vector (.scalar .u8)), false, none⟩]⟩]⟩

/-- C9 counterexample: on a schema containing a `Vector(Vector(_))` field
type, `lower_ast` does not return an `IrSchema` — it hits the
`panic!` in `lower_field_type` (ir.rs:197).  This refutes the claim for
unvalidated schemas. -/
theorem c9_lower_ast_panics_on_nested_vector :
    lowerAst nestedVecSchema = .panic := by rfl

theorem lowerFieldType_ok (enums : List IrEnum) (ft : FieldType)
    (h : ft.noNestedVec = true) :
    ∃ t, lowerFieldType enums ft = .ok t := by
  cases ft with
  | scalar st => exact ⟨_, rfl⟩
  | userDefined n => exact ⟨_, rfl⟩
  | vector inner =>
    simp only [FieldType.noNestedVec, Bool.and_eq_true, Bool.not_eq_true'] at h
    cases inner with
    | scalar st => exact ⟨_, rfl⟩
    | userDefined n => exact ⟨_, rfl⟩
    | vector j => simp [FieldType.isVector] at h

theorem lowerFields_ok (enums : List IrEnum) (fields : List Field) (i : Nat)
    (h : (fields.all fun f => f.field_type.noNestedVec) = true) :
    ∃ fs, lowerFields enums i fields = .ok fs := by
  induction fields generalizing i with
  | nil => exact ⟨_, rfl⟩
  | cons f rest ih =>
    simp only [List.all_cons, Bool.and_eq_true] at h
    obtain ⟨t, ht⟩ := lowerFieldType_ok enums f.field_type h.1
    obtain ⟨fs, hfs⟩ := ih (i + 1) h.2
    have heq : lowerFields enums i (f :: rest) =
        .ok (⟨f.name, toSnakeCase f.name, t, i % 2 ^ 16,
          "FIELD_" ++ toString i ++ "_OFFSET", f.optional,
          f.default_value.map lowerDefaultValue⟩ :: fs) := by
      rw [lowerFields, ht, hfs]
    exact ⟨_, heq⟩

/-- C9 amended: for every schema in which no `Vector(Vector(_))` field
type occurs — in particular every validator-accepted schema —
`lower_ast` terminates with an `IrSchema` and never fails or panics. -/
theorem c9_lower_ast_total_without_nested_vectors (s : Schema)
    (h : s.noNestedVectors = true) : ∃ ir, lowerAst s = .ok ir := by
  have hmsgs : ∀ msgs, (∀ m ∈ msgs, (m.fields.all fun f => f.field_type.noNestedVec) = true) →
      ∃ ms, lowerMessages (s.enumsOf.map lowerEnum) msgs = .ok ms := by
    intro msgs hall
    induction msgs with
    | nil => exact ⟨_, rfl⟩
    | cons m rest ih =>
      obtain ⟨fs, hfs⟩ := lowerFields_ok (s.enumsOf.map lowerEnum) m.fields 0
        (hall m (by simp))
      obtain ⟨ms, hms⟩ := ih fun m2 hm2 => hall m2 (by simp [hm2])
      have heq : lowerMessages (s.enumsOf.map lowerEnum) (m :: rest) =
          .ok (⟨m.name, toPascalCase m.name, fs,
            toPascalCase m.name ++ "Reader", toPascalCase m.name ++ "Builder"⟩ :: ms) := by
        rw [lowerMessages, lowerMessage, hfs, hms]
      exact ⟨_, heq⟩
  have hall : ∀ m ∈ s.messagesOf, (m.fields.all fun f => f.field_type.noNestedVec) = true := by
    intro m hm
    unfold Schema.messagesOf at hm
    rw [List.mem_filterMap] at hm
    obtain ⟨it, hit, hmatch⟩ := hm
    unfold Schema.noNestedVectors at h
    rw [List.all_eq_true] at h
    have := h it hit
    cases it with
    | message m2 =>
      simp at hmatch
      subst hmatch
      exact this
    | enum e => simp at hmatch
  obtain ⟨ms, hms⟩ := hmsgs s.messagesOf hall
  have heq : lowerAst s = .ok ⟨ms, s.enumsOf.map lowerEnum⟩ := by
    rw [lowerAst]
    rw [hms]
  exact ⟨_, heq⟩

/-- Witness for the amended C9 at `exampleSchema` (no vectors at all). -/
theorem c9_lower_ast_total_witness :
    exampleSchema.noNestedVectors = true ∧
    ∃ ir, lowerAst exampleSchema = .ok ir :=
  ⟨by rfl, c9_lower_ast_total_without_nested_vectors exampleSchema (by rfl)⟩

end ZeroProto
